import Mathlib

/-!
Verification of the protofolio AsyncAPI core (builder, validator, protocol
helpers) against its natural-language specification.

The Rust maps (`std::collections::HashMap`) are embedded as association
lists `List (String × α)`; a concrete list fixes one iteration order, and
theorems quantify over all lists, hence over all orders the Rust hash maps
may present.  `serde_json::Value` is embedded as the inductive `Json`.
The Rust `ValidationError` variants format their context data into long
diagnostic strings; the embedding keeps the identifying data carried by
each variant (field path, channel name, server name, message id, and for
`InvalidSchema` a context string assembled from the same parts) and drops
the quotation marks and hint prose of the `format!` templates.
-/

instance {ε α : Type} [DecidableEq ε] [DecidableEq α] : DecidableEq (Except ε α)
  | .ok a, .ok b => if h : a = b then isTrue (by rw [h]) else isFalse (by simp [h])
  | .ok _, .error _ => isFalse (by simp)
  | .error _, .ok _ => isFalse (by simp)
  | .error a, .error b => if h : a = b then isTrue (by rw [h]) else isFalse (by simp [h])

/-- Character-level test that the first list begins with the second;
`strStarts` below mirrors `str::starts_with`. -/
def chStarts : List Char → List Char → Bool
  | _, [] => true
  | [], _ :: _ => false
  | c :: cs, p :: ps => c = p && chStarts cs ps

/-- Mirrors `str::starts_with` on the character sequences of the strings. -/
def strStarts (s p : String) : Bool := chStarts s.data p.data

/-- Split off everything before and after the first occurrence of `sep`. -/
def splitFirst (sep : List Char) : List Char → Option (List Char × List Char)
  | [] => none
  | c :: cs =>
    if chStarts (c :: cs) sep then some ([], (c :: cs).drop sep.length)
    else
      match splitFirst sep cs with
      | some (before, post) => some (c :: before, post)
      | none => none

/-- Worker for `strSplitOn`; the fuel only bounds the recursion and is
chosen large enough to never run out. -/
def splitOnGo (sep : List Char) : Nat → List Char → List String
  | 0, cs => [⟨cs⟩]
  | fuel + 1, cs =>
    match splitFirst sep cs with
    | none => [⟨cs⟩]
    | some (before, post) => ⟨before⟩ :: splitOnGo sep fuel post

/-- Mirrors `str::split(sep)` for a non-empty separator: the pieces of the
string between the non-overlapping occurrences of `sep`, scanned left to
right. -/
def strSplitOn (s sep : String) : List String :=
  if sep.data = [] then [s] else splitOnGo sep.data (s.data.length + 1) s.data

/-- Remove a leading substring of the length of `p`; combined with a
`strStarts` test this mirrors `str::strip_prefix(p).unwrap_or("")`. -/
def strDropPre (s p : String) : String := ⟨s.data.drop p.data.length⟩

/-- Mirrors `str::is_empty`. -/
def strIsEmpty (s : String) : Bool := s.data.isEmpty

/-- Lookup in an association list, mirroring `HashMap::get`. -/
def alookup {α : Type} : List (String × α) → String → Option α
  | [], _ => none
  | (k, v) :: rest, key => if k = key then some v else alookup rest key

/-- Insert mirroring `HashMap::insert`: replace the value at an existing key
in place, otherwise add the new entry. -/
def ainsert {α : Type} : List (String × α) → String → α → List (String × α)
  | [], key, val => [(key, val)]
  | (k, v) :: rest, key, val =>
    if k = key then (key, val) :: rest else (k, v) :: ainsert rest key val

/-- Key membership, mirroring `HashMap::contains_key`. -/
def containsKey {α : Type} (m : List (String × α)) (k : String) : Bool :=
  (alookup m k).isSome

/-- Embedding of `serde_json::Value`. -/
inductive Json where
  | null
  | bool (b : Bool)
  | num (n : Int)
  | str (s : String)
  | arr (elems : List Json)
  | obj (fields : List (String × Json))

/-- Mirrors `Value::is_null`. -/
def Json.is_null : Json → Bool
  | .null => true
  | _ => false

/-- Mirrors `value.as_object().and_then(|o| o.get(key))`. -/
def Json.objGet : Json → String → Option Json
  | .obj fields, key => alookup fields key
  | _, _ => none

/-- Mirrors `str::strip_prefix(p).unwrap_or("")` from the validator. -/
def stripOr (s p : String) : String :=
  if strStarts s p then strDropPre s p else ""

/-- External documentation reference (spec/info.rs). -/
structure ExternalDocumentation where
  url : String
  description : Option String
deriving Repr

/-- Contact information carried by `Info` as initialized in builder.rs. -/
structure Contact where
  name : Option String
  url : Option String
  email : Option String
deriving Repr

/-- License information carried by `Info` as initialized in builder.rs. -/
structure License where
  name : String
  url : Option String
deriving Repr

/-- API information (spec/info.rs, with the contact/license/terms fields the
builder initializes). -/
structure Info where
  title : String
  version : String
  description : Option String
  external_docs : Option ExternalDocumentation
  contact : Option Contact
  license : Option License
  terms_of_service : Option String
deriving Repr

/-- Server variable definition (spec/info.rs). -/
structure ServerVariable where
  enum_values : Option (List String)
  default : Option String
  description : Option String
  examples : Option (List String)
deriving Repr

/-- Security requirement: scheme name to list of scopes (spec/security.rs). -/
def SecurityRequirement : Type := List (String × List String)

/-- Server definition (spec/info.rs).  The last field is named `variables`
in the source; that identifier is reserved here. -/
structure Server where
  url : String
  protocol : String
  description : Option String
  security : Option (List SecurityRequirement)
  server_variables : Option (List (String × ServerVariable))

/-- Tag definition (spec/channel.rs). -/
structure Tag where
  name : String
  description : Option String
deriving Repr

/-- Channel parameter (spec/channel.rs). -/
structure Parameter where
  description : Option String
  schema : Option Json
  location : Option String

/-- Correlation id (spec/channel.rs). -/
structure CorrelationId where
  location : String
  description : Option String
deriving Repr

/-- Message payload wrapper (spec/channel.rs): a JSON-Schema value. -/
structure MessagePayload where
  schema : Json

/-- Message definition (spec/channel.rs).  The trailing `traits` and
`bindings` fields of the Rust struct are never read by the validator or the
builder operations under study and are omitted. -/
structure Message where
  message_id : Option String
  name : Option String
  title : Option String
  summary : Option String
  description : Option String
  content_type : Option String
  tags : Option (List Tag)
  payload : MessagePayload
  external_docs : Option ExternalDocumentation
  examples : Option (List Json)
  headers : Option MessagePayload
  correlation_id : Option CorrelationId

/-- Message reference (spec/operation.rs): a `$ref` path string. -/
structure MessageReference where
  ref_path : String
deriving Repr

/-- Channel reference in an operation (spec/operation.rs). -/
structure ChannelReference where
  ref_path : String
deriving Repr

/-- Inline message or reference (spec/channel.rs). -/
inductive MessageOrRef where
  | Message (m : Message)
  | Ref (r : MessageReference)

/-- Inline channel bindings or a reference to component bindings
(spec/channel.rs). -/
inductive ChannelBindingsOrRef where
  | Bindings (v : Json)
  | Ref (r : MessageReference)

/-- Channel definition (spec/channel.rs). -/
structure Channel where
  address : String
  description : Option String
  messages : List (String × MessageOrRef)
  servers : Option (List String)
  parameters : Option (List (String × Parameter))
  bindings : Option ChannelBindingsOrRef

/-- Operation definition (spec/operation.rs).  The trailing `traits` and
`bindings` fields are never read by the validator and are omitted. -/
structure Operation where
  operation_id : String
  action : String
  channel : ChannelReference
  messages : List MessageReference
  summary : Option String
  description : Option String
  tags : Option (List Tag)
  external_docs : Option ExternalDocumentation

/-- Reusable components (spec/components.rs).  The `security_schemes`,
`operation_traits` and `message_traits` collections are never read by the
validator or by the builder operations under study and are omitted. -/
structure Components where
  messages : Option (List (String × Message))
  schemas : Option (List (String × Json))
  parameters : Option (List (String × Parameter))
  channel_bindings : Option (List (String × Json))
  message_bindings : Option (List (String × Json))
  server_bindings : Option (List (String × Json))

/-- Mirrors `Components::default()`: every collection absent. -/
def Components.default : Components :=
  { messages := none, schemas := none, parameters := none,
    channel_bindings := none, message_bindings := none,
    server_bindings := none }

/-- Root AsyncAPI specification document (spec/mod.rs). -/
structure AsyncApiSpec where
  asyncapi : String
  info : Info
  servers : Option (List (String × Server))
  channels : List (String × Channel)
  operations : Option (List (String × Operation))
  components : Option Components
  tags : Option (List Tag)

/-- Mirrors `types::ASYNCAPI_VERSION`. -/
def ASYNCAPI_VERSION : String := "3.0.0"

/-- Validation errors (error.rs).  Each constructor keeps the identifying
data the Rust variant interpolates into its diagnostic string. -/
inductive ValidationError where
  | MissingRequiredField (field : String)
  | InvalidAsyncApiVersion (found : String)
  | InvalidChannelReference (path : String)
  | InvalidServerReference (server : String)
  | InvalidSchema (context : String)
  | EmptyChannels
  | ChannelWithoutMessages (channel : String)
  | DuplicateMessageId (id : String)
  | UnsupportedProtocol (protocol : String) (supported : List String)
  | InvalidProtocol (context : String)
  | SchemaGenerationFailed (typeName cause : String)
  | MessageNotFound (channel message : String)
deriving DecidableEq, Repr

/-- Operation action (types.rs). -/
inductive OperationAction where
  | Send
  | Receive
deriving DecidableEq, Repr

/-- Mirrors `OperationAction::as_str`. -/
def OperationAction.as_str : OperationAction → String
  | .Send => "send"
  | .Receive => "receive"

/-- Mirrors `OperationAction::try_from(&str)`; the error keeps the rejected
string. -/
def OperationAction.try_from (s : String) : Except String OperationAction :=
  if s = "send" then .ok .Send
  else if s = "receive" then .ok .Receive
  else .error s

/-- MQTT quality-of-service levels (protocol/mqtt.rs). -/
inductive MqttQos where
  | AtMostOnce
  | AtLeastOnce
  | ExactlyOnce
deriving DecidableEq, Repr

/-- Mirrors `MqttQos::as_u8` (the discriminant values 0, 1, 2). -/
def MqttQos.as_u8 : MqttQos → Nat
  | .AtMostOnce => 0
  | .AtLeastOnce => 1
  | .ExactlyOnce => 2

/-- Mirrors `MqttQos::from_u8`. -/
def MqttQos.from_u8 : Nat → Option MqttQos
  | 0 => some .AtMostOnce
  | 1 => some .AtLeastOnce
  | 2 => some .ExactlyOnce
  | _ => none

/-- Mirrors `protocol::validate_protocol` with the nats, kafka and mqtt
features enabled (the crate's default test configuration). -/
def validate_protocol (protocol : String) : Except ValidationError Unit :=
  if protocol = "nats" then .ok ()
  else if protocol = "kafka" then .ok ()
  else if protocol = "mqtt" then .ok ()
  else .error (.UnsupportedProtocol protocol ["nats", "kafka", "mqtt"])

/-- Serialize an optional struct field, mirroring
`#[serde(skip_serializing_if = "Option::is_none")]`. -/
def optField (name : String) : Option Json → List (String × Json)
  | none => []
  | some v => [(name, v)]

/-- Mirrors `KafkaProtocol::channel_binding`: serde serialization of
`KafkaChannelBinding` with its `topic`, `partitions`, `replicas`,
`topic_configuration` (always absent here) and `binding_version` fields. -/
def KafkaProtocol.channel_binding (topic : Option String)
    (partitions replicas : Option Nat) : Json :=
  .obj [("kafka", .obj (
    optField "topic" (topic.map .str) ++
    optField "partitions" (partitions.map fun n => .num n) ++
    optField "replicas" (replicas.map fun n => .num n) ++
    optField "topic_configuration" none ++
    optField "binding_version" (some (.str "0.4.0"))))]

/-- Mirrors `get_channel_protocol` (validation/bindings.rs): the protocol of
the first server listed by the channel that exists in the document's server
map. -/
def get_channel_protocol (channel : Channel) (spec : AsyncApiSpec) :
    Option String :=
  match channel.servers, spec.servers with
  | some servers, some spec_servers =>
    servers.findSome? fun server_name =>
      (alookup spec_servers server_name).map (·.protocol)
  | _, _ => none

/-- Mirrors `validate_channel_bindings` (validation/bindings.rs). -/
def validate_channel_bindings (protocol : String) (bindings : Json)
    (channel_name : String) : Except ValidationError Unit :=
  if protocol = "kafka" then
    if (bindings.objGet "kafka").isSome then .ok ()
    else .error (.InvalidSchema
      ("Channel " ++ channel_name ++ ": Kafka channel bindings must have kafka key"))
  else if protocol = "mqtt" then
    if (bindings.objGet "mqtt").isSome then .ok ()
    else .error (.InvalidSchema
      ("Channel " ++ channel_name ++ ": MQTT channel bindings must have mqtt key"))
  else if protocol = "nats" then
    if (bindings.objGet "nats").isSome then .ok ()
    else .error (.InvalidSchema
      ("Channel " ++ channel_name ++ ": NATS channel bindings must have nats key"))
  else .ok ()

/-- Bindings value as the validator sees it: an inline value directly; a
reference serializes (untagged) as an object holding only its ref field. -/
def ChannelBindingsOrRef.toJson : ChannelBindingsOrRef → Json
  | .Bindings v => v
  | .Ref r => .obj [("$ref", .str r.ref_path)]

/-- Server-name set collected at the top of `validate_spec`. -/
def serverNames (spec : AsyncApiSpec) : List String :=
  match spec.servers with
  | some servers => servers.map Prod.fst
  | none => []

/-- Per-reference check performed for `MessageOrRef::Ref` entries in the
channel loop of `validate_spec` (validator.rs lines 124-187).  A path that
starts with `#/channels/` but does not split into exactly a channel part and
a message part around `/messages/` is accepted without any check, exactly as
in the source. -/
def checkMessageRef (spec : AsyncApiSpec)
    (channel_name message_name ref_path : String) :
    Except ValidationError Unit :=
  if strStarts ref_path "#/components/messages/" then
    let component_name := stripOr ref_path "#/components/messages/"
    match spec.components with
    | some components =>
      match components.messages with
      | some messages =>
        if containsKey messages component_name then .ok ()
        else .error (.InvalidSchema
          ("Message " ++ message_name ++ " in channel " ++ channel_name ++
           " references component " ++ component_name ++
           " which does not exist in components.messages"))
      | none => .error (.InvalidSchema
          ("Message " ++ message_name ++ " in channel " ++ channel_name ++
           " references component " ++ component_name ++
           " but no components.messages are defined"))
    | none => .error (.InvalidSchema
        ("Message " ++ message_name ++ " in channel " ++ channel_name ++
         " references component " ++ component_name ++
         " but no components section is defined"))
  else if strStarts ref_path "#/channels/" then
    match strSplitOn (stripOr ref_path "#/channels/") "/messages/" with
    | [ref_channel, ref_message] =>
      match alookup spec.channels ref_channel with
      | some ref_channel_obj =>
        if containsKey ref_channel_obj.messages ref_message then .ok ()
        else .error (.InvalidSchema
          ("Message " ++ message_name ++ " in channel " ++ channel_name ++
           " references message " ++ ref_message ++ " in channel " ++
           ref_channel ++ " which does not exist"))
      | none => .error (.InvalidSchema
          ("Message " ++ message_name ++ " in channel " ++ channel_name ++
           " references channel " ++ ref_channel ++ " which does not exist"))
    | _ => .ok ()
  else
    .error (.InvalidSchema
      ("Invalid message reference format in channel " ++ channel_name ++
       ", message " ++ message_name ++ ": " ++ ref_path ++
       ". Expected #/components/messages/... or #/channels/.../messages/..."))

/-- Message loop inside one channel (validator.rs lines 100-189): null-schema
check and duplicate-id accumulation for inline messages, reference check for
references.  `message_ids` is the accumulated id set. -/
def checkChannelMessages (spec : AsyncApiSpec) (channel_name : String) :
    List (String × MessageOrRef) → List String →
    Except ValidationError (List String)
  | [], message_ids => .ok message_ids
  | (message_name, .Message m) :: rest, message_ids =>
    if m.payload.schema.is_null then
      .error (.InvalidSchema
        ("Message " ++ message_name ++ " in channel " ++ channel_name ++
         " has null schema"))
    else
      match m.message_id with
      | none => checkChannelMessages spec channel_name rest message_ids
      | some msg_id =>
        if message_ids.contains msg_id then
          .error (.DuplicateMessageId msg_id)
        else checkChannelMessages spec channel_name rest (msg_id :: message_ids)
  | (message_name, .Ref msg_ref) :: rest, message_ids =>
    match checkMessageRef spec channel_name message_name msg_ref.ref_path with
    | .ok _ => checkChannelMessages spec channel_name rest message_ids
    | .error e => .error e

/-- First server listed by a channel that is missing from the server-name
set; the validator errors on exactly this server (validator.rs 82-97). -/
def firstMissingServer (server_names : List String)
    (channel_servers : Option (List String)) : Option String :=
  match channel_servers with
  | none => none
  | some servers => servers.find? fun s => !server_names.contains s

/-- Channel loop of `validate_spec` (validator.rs lines 73-190). -/
def checkChannels (spec : AsyncApiSpec) (server_names : List String) :
    List (String × Channel) → List String →
    Except ValidationError (List String)
  | [], message_ids => .ok message_ids
  | (channel_name, channel) :: rest, message_ids =>
    if channel.messages.isEmpty then
      .error (.ChannelWithoutMessages channel_name)
    else
      match firstMissingServer server_names channel.servers with
      | some server_name => .error (.InvalidServerReference server_name)
      | none =>
        match checkChannelMessages spec channel_name channel.messages message_ids with
        | .error e => .error e
        | .ok message_ids' => checkChannels spec server_names rest message_ids'

/-- Per-reference check in the operation loop (validator.rs 203-244). -/
def checkOperationMessageRef (spec : AsyncApiSpec) (op_id ref_path : String) :
    Except ValidationError Unit :=
  if !strStarts ref_path "#/channels/" &&
     !strStarts ref_path "#/components/messages/" then
    .error (.InvalidSchema
      ("Invalid message reference format in operation " ++ op_id ++ ": " ++
       ref_path ++
       ". Expected #/channels/.../messages/... or #/components/messages/..."))
  else if strStarts ref_path "#/components/messages/" then
    let component_name := stripOr ref_path "#/components/messages/"
    match spec.components with
    | some components =>
      match components.messages with
      | some messages =>
        if containsKey messages component_name then .ok ()
        else .error (.InvalidSchema
          ("Operation " ++ op_id ++ " references component message " ++
           component_name ++ " which does not exist in components.messages"))
      | none => .error (.InvalidSchema
          ("Operation " ++ op_id ++ " references component message " ++
           component_name ++ " but no components.messages are defined"))
    | none => .error (.InvalidSchema
        ("Operation " ++ op_id ++ " references component message " ++
         component_name ++ " but no components section is defined"))
  else .ok ()

/-- Message-reference loop of one operation. -/
def checkOperationMessages (spec : AsyncApiSpec) (op_id : String) :
    List MessageReference → Except ValidationError Unit
  | [] => .ok ()
  | r :: rest =>
    match checkOperationMessageRef spec op_id r.ref_path with
    | .ok _ => checkOperationMessages spec op_id rest
    | .error e => .error e

/-- Operation loop of `validate_spec` (validator.rs lines 193-246).  Note
that an operation's `action` field is never inspected. -/
def checkOperations (spec : AsyncApiSpec) :
    List (String × Operation) → Except ValidationError Unit
  | [] => .ok ()
  | (op_id, op) :: rest =>
    if !strStarts op.channel.ref_path "#/channels/" then
      .error (.InvalidChannelReference op.channel.ref_path)
    else
      match checkOperationMessages spec op_id op.messages with
      | .ok _ => checkOperations spec rest
      | .error e => .error e

/-- Operations step of `validate_spec` (runs only when operations exist). -/
def checkOperationsStep (spec : AsyncApiSpec) : Except ValidationError Unit :=
  match spec.operations with
  | some operations => checkOperations spec operations
  | none => .ok ()

/-- Server-protocol loop of `validate_spec` (validator.rs lines 249-262):
`UnsupportedProtocol` is rewrapped as `InvalidProtocol` with the server. -/
def checkServerProtocols : List (String × Server) → Except ValidationError Unit
  | [] => .ok ()
  | (server_name, server) :: rest =>
    match validate_protocol server.protocol with
    | .error (.UnsupportedProtocol protocol _supported) =>
      .error (.InvalidProtocol
        ("Server " ++ server_name ++ " uses unsupported protocol " ++ protocol))
    | .error e => .error e
    | .ok _ => checkServerProtocols rest

/-- Protocols step of `validate_spec` (runs only when servers exist). -/
def checkProtocolsStep (spec : AsyncApiSpec) : Except ValidationError Unit :=
  match spec.servers with
  | some servers => checkServerProtocols servers
  | none => .ok ()

/-- Bindings loop of `validate_spec` (validator.rs lines 264-272). -/
def checkChannelBindings (spec : AsyncApiSpec) :
    List (String × Channel) → Except ValidationError Unit
  | [] => .ok ()
  | (channel_name, channel) :: rest =>
    match channel.bindings with
    | some bindings =>
      (match get_channel_protocol channel spec with
       | some protocol =>
         match validate_channel_bindings protocol bindings.toJson channel_name with
         | .ok _ => checkChannelBindings spec rest
         | .error e => .error e
       | none => checkChannelBindings spec rest)
    | none => checkChannelBindings spec rest

/-- Component-message loop of `validate_spec` (validator.rs lines 275-297):
null-schema check and duplicate-id check against the set accumulated in the
channel loop. -/
def checkComponentMessages :
    List (String × Message) → List String → Except ValidationError Unit
  | [], _ => .ok ()
  | (component_name, message) :: rest, message_ids =>
    if message.payload.schema.is_null then
      .error (.InvalidSchema
        ("Component message " ++ component_name ++ " has null schema"))
    else
      match message.message_id with
      | none => checkComponentMessages rest message_ids
      | some msg_id =>
        if message_ids.contains msg_id then
          .error (.DuplicateMessageId msg_id)
        else checkComponentMessages rest (msg_id :: message_ids)

/-- Components step of `validate_spec`. -/
def checkComponentsStep (spec : AsyncApiSpec) (message_ids : List String) :
    Except ValidationError Unit :=
  match spec.components with
  | some components =>
    match components.messages with
    | some messages => checkComponentMessages messages message_ids
    | none => .ok ()
  | none => .ok ()

/-- Mirrors `validate_spec` (validation/validator.rs), assembled from the
step functions above in the source's order. -/
def validate_spec (spec : AsyncApiSpec) : Except ValidationError Unit :=
  if spec.asyncapi ≠ ASYNCAPI_VERSION then
    .error (.InvalidAsyncApiVersion spec.asyncapi)
  else if strIsEmpty spec.info.title then
    .error (.MissingRequiredField "info.title")
  else if strIsEmpty spec.info.version then
    .error (.MissingRequiredField "info.version")
  else if spec.channels.isEmpty then
    .error .EmptyChannels
  else
    match checkChannels spec (serverNames spec) spec.channels [] with
    | .error e => .error e
    | .ok message_ids =>
      match checkOperationsStep spec with
      | .error e => .error e
      | .ok _ =>
        match checkProtocolsStep spec with
        | .error e => .error e
        | .ok _ =>
          match checkChannelBindings spec spec.channels with
          | .error e => .error e
          | .ok _ => checkComponentsStep spec message_ids

/-- Builder (builder/builder.rs): a wrapper over the spec being built. -/
structure AsyncApiBuilder where
  spec : AsyncApiSpec

/-- Mirrors `AsyncApiBuilder::new`. -/
def AsyncApiBuilder.new : AsyncApiBuilder :=
  { spec :=
    { asyncapi := ASYNCAPI_VERSION
      info :=
        { title := "", version := "", description := none,
          external_docs := none, contact := none, license := none,
          terms_of_service := none }
      servers := none
      channels := []
      operations := none
      components := none
      tags := none } }

/-- Mirrors `AsyncApiBuilder::info`. -/
def AsyncApiBuilder.info (b : AsyncApiBuilder) (info : Info) : AsyncApiBuilder :=
  { b with spec := { b.spec with info := info } }

/-- Mirrors `AsyncApiBuilder::server`. -/
def AsyncApiBuilder.server (b : AsyncApiBuilder) (name : String)
    (server : Server) : AsyncApiBuilder :=
  { b with spec :=
    { b.spec with servers := some (ainsert (b.spec.servers.getD []) name server) } }

/-- Mirrors `AsyncApiBuilder::channel`. -/
def AsyncApiBuilder.channel (b : AsyncApiBuilder) (name : String)
    (channel : Channel) : AsyncApiBuilder :=
  { b with spec := { b.spec with channels := ainsert b.spec.channels name channel } }

/-- Mirrors `AsyncApiBuilder::channel_message`: via `get_mut`, a message is
inserted only when the channel already exists; otherwise nothing happens. -/
def AsyncApiBuilder.channel_message (b : AsyncApiBuilder)
    (channel_name message_name : String) (message : Message) : AsyncApiBuilder :=
  match alookup b.spec.channels channel_name with
  | none => b
  | some channel =>
    let msgs' := ainsert channel.messages message_name (.Message message)
    let channel' := { channel with messages := msgs' }
    { b with spec :=
      { b.spec with channels := ainsert b.spec.channels channel_name channel' } }

/-- Mirrors `AsyncApiBuilder::channel_message_ref`: inserts a
component-scoped reference, only when the channel already exists. -/
def AsyncApiBuilder.channel_message_ref (b : AsyncApiBuilder)
    (channel_name message_name component_name : String) : AsyncApiBuilder :=
  match alookup b.spec.channels channel_name with
  | none => b
  | some channel =>
    let msg_ref : MessageOrRef :=
      .Ref { ref_path := "#/components/messages/" ++ component_name }
    let channel' :=
      { channel with messages := ainsert channel.messages message_name msg_ref }
    { b with spec :=
      { b.spec with channels := ainsert b.spec.channels channel_name channel' } }

/-- Mirrors `AsyncApiBuilder::channel_with_bindings`. -/
def AsyncApiBuilder.channel_with_bindings (b : AsyncApiBuilder) (name : String)
    (channel : Channel) (bindings : Json) : AsyncApiBuilder :=
  let channel' := { channel with bindings := some (.Bindings bindings) }
  { b with spec :=
    { b.spec with channels := ainsert b.spec.channels name channel' } }

/-- Mirrors `AsyncApiBuilder::component_message`. -/
def AsyncApiBuilder.component_message (b : AsyncApiBuilder) (name : String)
    (message : Message) : AsyncApiBuilder :=
  let components := b.spec.components.getD Components.default
  let msgs' := ainsert (components.messages.getD []) name message
  let components' := { components with messages := some msgs' }
  { b with spec := { b.spec with components := some components' } }

/-- Mirrors `AsyncApiBuilder::build`. -/
def AsyncApiBuilder.build (b : AsyncApiBuilder) : AsyncApiSpec := b.spec

/-- Mirrors `AsyncApiBuilder::kafka_channel`. -/
def AsyncApiBuilder.kafka_channel (b : AsyncApiBuilder) (name : String)
    (channel : Channel) (topic : Option String)
    (partitions replicas : Option Nat) : AsyncApiBuilder :=
  b.channel_with_bindings name channel
    (KafkaProtocol.channel_binding topic partitions replicas)

/-!  Infrastructure for reasoning about the validator's duplicate-id
tracking.  `idFold` is the pure id-accumulation skeleton that the channel
and component loops reduce to once every other check passes. -/

/-- Message ids contributed by one channel's message map: ids of inline
messages, in iteration order; references contribute nothing. -/
def channelInlineIds (messages : List (String × MessageOrRef)) : List String :=
  messages.filterMap fun p =>
    match p.2 with
    | .Message m => m.message_id
    | .Ref _ => none

/-- Message ids contributed by all channels, in iteration order. -/
def channelsIds : List (String × Channel) → List String
  | [] => []
  | p :: rest => channelInlineIds p.2.messages ++ channelsIds rest

/-- Message ids contributed by a component-message map. -/
def componentIdsOf (messages : List (String × Message)) : List String :=
  messages.filterMap fun p => p.2.message_id

/-- Message ids the validator scans for duplicates, in scan order: first all
channel inline messages, then the component messages. -/
def componentIds (spec : AsyncApiSpec) : List String :=
  match spec.components with
  | some components => componentIdsOf (components.messages.getD [])
  | none => []

/-- Every message id in the document, in the validator's scan order. -/
def allMessageIds (spec : AsyncApiSpec) : List String :=
  channelsIds spec.channels ++ componentIds spec

/-- Pure duplicate-detection skeleton: push each id onto the accumulator,
failing on the first id already present. -/
def idFold : List String → List String → Except ValidationError (List String)
  | [], acc => .ok acc
  | i :: rest, acc =>
    if acc.contains i then .error (.DuplicateMessageId i)
    else idFold rest (i :: acc)

theorem idFold_ok_of : ∀ (xs acc : List String), xs.Nodup →
    (∀ x ∈ xs, x ∉ acc) → idFold xs acc = .ok (xs.reverse ++ acc)
  | [], acc, _, _ => rfl
  | i :: rest, acc, hnd, hdisj => by
    have hi : i ∉ acc := hdisj i (by simp)
    have hnd' := (List.nodup_cons.mp hnd).2
    have hni : i ∉ rest := (List.nodup_cons.mp hnd).1
    have hdisj' : ∀ x ∈ rest, x ∉ i :: acc := by
      intro x hx
      simp only [List.mem_cons, not_or]
      exact ⟨fun h => hni (h ▸ hx), hdisj x (List.mem_cons_of_mem _ hx)⟩
    have : idFold rest (i :: acc) = .ok (rest.reverse ++ i :: acc) :=
      idFold_ok_of rest (i :: acc) hnd' hdisj'
    simp only [idFold]
    rw [if_neg (by simpa using hi)]
    rw [this]
    simp

theorem idFold_ok_elim : ∀ (xs acc r : List String),
    idFold xs acc = .ok r → r = xs.reverse ++ acc
  | [], acc, r, h => by
    simp only [idFold] at h
    cases h
    simp
  | i :: rest, acc, r, h => by
    simp only [idFold] at h
    by_cases hc : acc.contains i
    · rw [if_pos hc] at h
      cases h
    · rw [if_neg hc] at h
      have := idFold_ok_elim rest (i :: acc) r h
      rw [this]
      simp

theorem idFold_err_elim : ∀ (xs acc : List String) (e : ValidationError),
    idFold xs acc = .error e →
    ∃ d, e = .DuplicateMessageId d ∧ 2 ≤ (acc ++ xs).count d
  | [], _, _, h => by
    simp only [idFold] at h
    exact Except.noConfusion h
  | i :: rest, acc, e, h => by
    simp only [idFold] at h
    by_cases hc : acc.contains i
    · rw [if_pos hc] at h
      cases h
      refine ⟨i, rfl, ?_⟩
      have hmem : i ∈ acc := by simpa using hc
      have h1 : 0 < acc.count i := List.count_pos_iff.mpr hmem
      have h2 : 1 ≤ (i :: rest).count i := by simp [List.count_cons]
      calc 2 ≤ acc.count i + (i :: rest).count i := by omega
        _ = (acc ++ i :: rest).count i := (List.count_append ..).symm
    · rw [if_neg hc] at h
      obtain ⟨d, hd, hcount⟩ := idFold_err_elim rest (i :: acc) e h
      refine ⟨d, hd, ?_⟩
      have hperm : List.Perm (i :: (acc ++ rest)) (acc ++ i :: rest) :=
        List.perm_middle.symm
      have hcount' : 2 ≤ (i :: (acc ++ rest)).count d := by
        simpa using hcount
      calc 2 ≤ (i :: (acc ++ rest)).count d := hcount'
        _ = (acc ++ i :: rest).count d := hperm.count_eq d

theorem idFold_err_of : ∀ (xs acc : List String),
    ¬(xs.Nodup ∧ ∀ x ∈ xs, x ∉ acc) →
    ∃ d, idFold xs acc = .error (.DuplicateMessageId d) ∧
      2 ≤ (acc ++ xs).count d := by
  intro xs acc h
  cases hr : idFold xs acc with
  | ok r =>
    exfalso
    apply h
    clear h
    induction xs generalizing acc r with
    | nil => simp
    | cons i rest ih =>
      simp only [idFold] at hr
      by_cases hc : acc.contains i
      · rw [if_pos hc] at hr
        cases hr
      · rw [if_neg hc] at hr
        obtain ⟨hnd, hdisj⟩ := ih (i :: acc) r hr
        have hi : i ∉ acc := by simpa using hc
        have hni : i ∉ rest := by
          intro hmem
          exact hdisj i hmem (by simp)
        refine ⟨List.nodup_cons.mpr ⟨hni, hnd⟩, ?_⟩
        intro x hx
        rcases List.mem_cons.mp hx with h1 | h2
        · exact h1 ▸ hi
        · intro hmem
          exact hdisj x h2 (List.mem_cons_of_mem _ hmem)
  | error e =>
    obtain ⟨d, hd, hcount⟩ := idFold_err_elim xs acc e hr
    subst hd
    exact ⟨d, rfl, hcount⟩

/-- One message entry passes its per-message checks: an inline message has a
non-null payload schema, a reference passes `checkMessageRef`. -/
def messageEntryOk (spec : AsyncApiSpec) (channel_name : String)
    (p : String × MessageOrRef) : Bool :=
  match p.2 with
  | .Message m => !m.payload.schema.is_null
  | .Ref r =>
    match checkMessageRef spec channel_name p.1 r.ref_path with
    | .ok _ => true
    | .error _ => false

/-- One channel passes all its per-channel checks other than duplicate-id
detection: non-empty messages, all listed servers exist, all message entries
pass. -/
def channelOk (spec : AsyncApiSpec) (server_names : List String)
    (p : String × Channel) : Bool :=
  !p.2.messages.isEmpty &&
  (firstMissingServer server_names p.2.servers).isNone &&
  p.2.messages.all (messageEntryOk spec p.1)

theorem checkChannelMessages_clean (spec : AsyncApiSpec) (cname : String) :
    ∀ (msgs : List (String × MessageOrRef)) (acc : List String),
    (∀ m ∈ msgs, messageEntryOk spec cname m = true) →
    checkChannelMessages spec cname msgs acc = idFold (channelInlineIds msgs) acc := by
  intro msgs
  induction msgs with
  | nil => intro acc _; rfl
  | cons p rest ih =>
    intro acc hok
    obtain ⟨mname, entry⟩ := p
    have hhead := hok _ (List.mem_cons_self _ _)
    have htail : ∀ m ∈ rest, messageEntryOk spec cname m = true :=
      fun m hm => hok m (List.mem_cons_of_mem _ hm)
    cases entry with
    | Message m =>
      have hnull : m.payload.schema.is_null = false := by
        simpa [messageEntryOk] using hhead
      simp only [checkChannelMessages, channelInlineIds, List.filterMap_cons]
      rw [hnull]
      cases hid : m.message_id with
      | none =>
        simp only [Bool.false_eq_true, if_false]
        simpa [channelInlineIds] using ih acc htail
      | some msg_id =>
        simp only [Bool.false_eq_true, if_false, idFold]
        by_cases hc : acc.contains msg_id
        · rw [if_pos hc, if_pos hc]
        · rw [if_neg hc, if_neg hc]
          simpa [channelInlineIds] using ih (msg_id :: acc) htail
    | Ref r =>
      have href : checkMessageRef spec cname mname r.ref_path = .ok () := by
        simp only [messageEntryOk] at hhead
        cases h : checkMessageRef spec cname mname r.ref_path with
        | ok u => cases u; rfl
        | error e => rw [h] at hhead; simp at hhead
      simp only [checkChannelMessages, channelInlineIds, List.filterMap_cons]
      rw [href]
      simpa [channelInlineIds] using ih acc htail

theorem idFold_append : ∀ (xs ys acc : List String),
    idFold (xs ++ ys) acc =
      match idFold xs acc with
      | .error e => .error e
      | .ok r => idFold ys r
  | [], _, _ => rfl
  | i :: rest, ys, acc => by
    simp only [List.cons_append, idFold]
    by_cases hc : acc.contains i
    · rw [if_pos hc, if_pos hc]
    · rw [if_neg hc, if_neg hc]
      exact idFold_append rest ys (i :: acc)

theorem checkChannels_clean (spec : AsyncApiSpec) (sn : List String) :
    ∀ (chans : List (String × Channel)) (acc : List String),
    (∀ c ∈ chans, channelOk spec sn c = true) →
    checkChannels spec sn chans acc = idFold (channelsIds chans) acc := by
  intro chans
  induction chans with
  | nil => intro acc _; rfl
  | cons p rest ih =>
    intro acc hok
    obtain ⟨cname, channel⟩ := p
    have hhead := hok _ (List.mem_cons_self _ _)
    have htail : ∀ c ∈ rest, channelOk spec sn c = true :=
      fun c hc => hok c (List.mem_cons_of_mem _ hc)
    simp only [channelOk, Bool.and_eq_true, Bool.not_eq_true'] at hhead
    obtain ⟨⟨hne, hsrv⟩, hmsgs⟩ := hhead
    have hmsgs' : ∀ m ∈ channel.messages, messageEntryOk spec cname m = true :=
      List.all_eq_true.mp hmsgs
    simp only [checkChannels, channelsIds]
    rw [hne]
    simp only [Bool.false_eq_true, if_false]
    rw [Option.isNone_iff_eq_none.mp hsrv]
    rw [checkChannelMessages_clean spec cname channel.messages acc hmsgs']
    rw [idFold_append]
    cases hres : idFold (channelInlineIds channel.messages) acc with
    | error e => rfl
    | ok r => exact ih r htail

theorem checkMessageRef_error_shape (spec : AsyncApiSpec)
    (cname mname rp : String) (e : ValidationError)
    (h : checkMessageRef spec cname mname rp = .error e) :
    ∃ s, e = .InvalidSchema s := by
  simp only [checkMessageRef] at h
  repeat' split at h
  all_goals
    first
    | exact Except.noConfusion h
    | exact ⟨_, (Except.error.inj h).symm⟩

theorem checkChannelMessages_ok_elim (spec : AsyncApiSpec) (cname : String) :
    ∀ (msgs : List (String × MessageOrRef)) (acc r : List String),
    checkChannelMessages spec cname msgs acc = .ok r →
    r = (channelInlineIds msgs).reverse ++ acc := by
  intro msgs
  induction msgs with
  | nil =>
    intro acc r h
    simp only [checkChannelMessages] at h
    cases h
    simp [channelInlineIds]
  | cons p rest ih =>
    intro acc r h
    obtain ⟨mname, entry⟩ := p
    cases entry with
    | Message m =>
      simp only [checkChannelMessages] at h
      split at h
      · exact Except.noConfusion h
      · split at h
        · have := ih acc r h
          rw [this]
          simp only [channelInlineIds, List.filterMap_cons]
          rw [‹m.message_id = none›]
        · split at h
          · exact Except.noConfusion h
          · have := ih _ r h
            rw [this]
            simp only [channelInlineIds, List.filterMap_cons]
            rw [‹m.message_id = some _›]
            simp [channelInlineIds]
    | Ref ref =>
      simp only [checkChannelMessages] at h
      split at h
      · have := ih acc r h
        simpa [channelInlineIds, List.filterMap_cons] using this
      · exact Except.noConfusion h

theorem checkChannelMessages_err_elim (spec : AsyncApiSpec) (cname : String) :
    ∀ (msgs : List (String × MessageOrRef)) (acc : List String)
    (e : ValidationError),
    checkChannelMessages spec cname msgs acc = .error e →
    (∃ s, e = .InvalidSchema s) ∨
    (∃ d, e = .DuplicateMessageId d ∧ 2 ≤ (acc ++ channelInlineIds msgs).count d) := by
  intro msgs
  induction msgs with
  | nil =>
    intro acc e h
    simp only [checkChannelMessages] at h
    exact Except.noConfusion h
  | cons p rest ih =>
    intro acc e h
    obtain ⟨mname, entry⟩ := p
    cases entry with
    | Message m =>
      simp only [checkChannelMessages] at h
      by_cases hnull : m.payload.schema.is_null
      · rw [if_pos hnull] at h
        exact .inl ⟨_, (Except.error.inj h).symm⟩
      · rw [if_neg hnull] at h
        cases hid : m.message_id with
        | none =>
          rw [hid] at h
          rcases ih acc e h with hs | ⟨d, hd, hcount⟩
          · exact .inl hs
          · refine .inr ⟨d, hd, ?_⟩
            simp only [channelInlineIds, List.filterMap_cons]
            rw [hid]
            exact hcount
        | some msg_id =>
          rw [hid] at h
          simp only at h
          by_cases hc : acc.contains msg_id
          · rw [if_pos hc] at h
            cases h
            refine .inr ⟨msg_id, rfl, ?_⟩
            have hmem : msg_id ∈ acc := by simpa using hc
            have h1 : 0 < acc.count msg_id := List.count_pos_iff.mpr hmem
            simp only [channelInlineIds, List.filterMap_cons]
            rw [hid]
            rw [List.count_append]
            simp only [List.count_cons_self]
            omega
          · rw [if_neg hc] at h
            rcases ih _ e h with hs | ⟨d, hd, hcount⟩
            · exact .inl hs
            · refine .inr ⟨d, hd, ?_⟩
              simp only [channelInlineIds, List.filterMap_cons]
              rw [hid]
              have hperm :
                  List.Perm (msg_id :: (acc ++ channelInlineIds rest))
                    (acc ++ msg_id :: channelInlineIds rest) :=
                List.perm_middle.symm
              have hcount' : 2 ≤ (msg_id :: (acc ++ channelInlineIds rest)).count d := by
                simpa using hcount
              calc 2 ≤ (msg_id :: (acc ++ channelInlineIds rest)).count d := hcount'
                _ = (acc ++ msg_id :: channelInlineIds rest).count d := hperm.count_eq d
    | Ref ref =>
      simp only [checkChannelMessages] at h
      cases hmr : checkMessageRef spec cname mname ref.ref_path with
      | ok u =>
        cases u
        rw [hmr] at h
        simp only at h
        rcases ih acc e h with hs | ⟨d, hd, hcount⟩
        · exact .inl hs
        · refine .inr ⟨d, hd, ?_⟩
          simpa [channelInlineIds, List.filterMap_cons] using hcount
      | error e2 =>
        rw [hmr] at h
        simp only at h
        cases h
        exact .inl (checkMessageRef_error_shape spec cname mname ref.ref_path _ hmr)

theorem checkChannels_ok_elim (spec : AsyncApiSpec) (sn : List String) :
    ∀ (chans : List (String × Channel)) (acc r : List String),
    checkChannels spec sn chans acc = .ok r →
    r = (channelsIds chans).reverse ++ acc := by
  intro chans
  induction chans with
  | nil =>
    intro acc r h
    simp only [checkChannels] at h
    cases h
    simp [channelsIds]
  | cons p rest ih =>
    intro acc r h
    obtain ⟨cname, channel⟩ := p
    simp only [checkChannels] at h
    split at h
    · exact Except.noConfusion h
    · split at h
      · exact Except.noConfusion h
      · rename_i hsrv
        cases hmsgs : checkChannelMessages spec cname channel.messages acc with
        | error e =>
          rw [hmsgs] at h
          simp only at h
          exact Except.noConfusion h
        | ok acc' =>
          rw [hmsgs] at h
          simp only at h
          have h1 := checkChannelMessages_ok_elim spec cname channel.messages acc acc' hmsgs
          have h2 := ih acc' r h
          rw [h2, h1]
          simp [channelsIds, List.append_assoc]

theorem checkChannels_err_elim (spec : AsyncApiSpec) (sn : List String) :
    ∀ (chans : List (String × Channel)) (acc : List String) (e : ValidationError),
    checkChannels spec sn chans acc = .error e →
    (∃ s, e = .InvalidSchema s) ∨
    (∃ c, e = .ChannelWithoutMessages c) ∨
    (∃ s, e = .InvalidServerReference s ∧
      ∃ p ∈ chans, firstMissingServer sn p.2.servers = some s) ∨
    (∃ d, e = .DuplicateMessageId d ∧ 2 ≤ (acc ++ channelsIds chans).count d) := by
  intro chans
  induction chans with
  | nil =>
    intro acc e h
    simp only [checkChannels] at h
    exact Except.noConfusion h
  | cons p rest ih =>
    intro acc e h
    obtain ⟨cname, channel⟩ := p
    simp only [checkChannels] at h
    split at h
    · cases h
      exact .inr (.inl ⟨cname, rfl⟩)
    · split at h
      · rename_i server_name hfms
        cases h
        exact .inr (.inr (.inl ⟨server_name, rfl,
          (cname, channel), List.mem_cons_self _ _, hfms⟩))
      · cases hmsgs : checkChannelMessages spec cname channel.messages acc with
        | error e2 =>
          rw [hmsgs] at h
          simp only at h
          cases h
          rcases checkChannelMessages_err_elim spec cname channel.messages acc _ hmsgs with
            hs | ⟨d, hd, hcount⟩
          · exact .inl hs
          · refine .inr (.inr (.inr ⟨d, hd, ?_⟩))
            simp only [channelsIds]
            simp only [List.count_append] at hcount ⊢
            omega
        | ok acc' =>
          rw [hmsgs] at h
          simp only at h
          have h1 := checkChannelMessages_ok_elim spec cname channel.messages acc acc' hmsgs
          rcases ih acc' e h with hs | hcw | ⟨s, hse, q, hq, hfms⟩ | ⟨d, hd, hcount⟩
          · exact .inl hs
          · exact .inr (.inl hcw)
          · exact .inr (.inr (.inl ⟨s, hse, q, List.mem_cons_of_mem _ hq, hfms⟩))
          · refine .inr (.inr (.inr ⟨d, hd, ?_⟩))
            rw [h1] at hcount
            simp only [channelsIds]
            simp only [List.count_append, List.count_reverse] at hcount ⊢
            omega

theorem checkChannelMessages_ok_refs (spec : AsyncApiSpec) (cname : String) :
    ∀ (msgs : List (String × MessageOrRef)) (acc r : List String),
    checkChannelMessages spec cname msgs acc = .ok r →
    ∀ p ∈ msgs, ∀ ref, p.2 = .Ref ref →
    checkMessageRef spec cname p.1 ref.ref_path = .ok () := by
  intro msgs
  induction msgs with
  | nil =>
    intro acc r _ p hp
    exact absurd hp (List.not_mem_nil p)
  | cons q rest ih =>
    intro acc r h p hp ref href
    obtain ⟨mname, entry⟩ := q
    rcases List.mem_cons.mp hp with rfl | hmem
    · cases entry with
      | Message m => exact absurd href (by simp)
      | Ref r2 =>
        simp only at href
        cases href
        simp only [checkChannelMessages] at h
        cases hmr : checkMessageRef spec cname mname ref.ref_path with
        | ok u => cases u; rfl
        | error e2 =>
          rw [hmr] at h
          simp only at h
          exact Except.noConfusion h
    · cases entry with
      | Message m =>
        simp only [checkChannelMessages] at h
        split at h
        · exact Except.noConfusion h
        · split at h
          · exact ih acc r h p hmem ref href
          · split at h
            · exact Except.noConfusion h
            · exact ih _ r h p hmem ref href
      | Ref r2 =>
        simp only [checkChannelMessages] at h
        split at h
        · exact ih acc r h p hmem ref href
        · exact Except.noConfusion h

theorem checkChannels_ok_refs (spec : AsyncApiSpec) (sn : List String) :
    ∀ (chans : List (String × Channel)) (acc r : List String),
    checkChannels spec sn chans acc = .ok r →
    ∀ p ∈ chans, ∀ q ∈ p.2.messages, ∀ ref, q.2 = .Ref ref →
    checkMessageRef spec p.1 q.1 ref.ref_path = .ok () := by
  intro chans
  induction chans with
  | nil =>
    intro acc r _ p hp
    exact absurd hp (List.not_mem_nil p)
  | cons c rest ih =>
    intro acc r h p hp q hq ref href
    obtain ⟨cname, channel⟩ := c
    simp only [checkChannels] at h
    split at h
    · exact Except.noConfusion h
    · split at h
      · exact Except.noConfusion h
      · cases hmsgs : checkChannelMessages spec cname channel.messages acc with
        | error e =>
          rw [hmsgs] at h
          simp only at h
          exact Except.noConfusion h
        | ok acc' =>
          rw [hmsgs] at h
          simp only at h
          rcases List.mem_cons.mp hp with rfl | hmem
          · exact checkChannelMessages_ok_refs spec cname channel.messages acc acc'
              hmsgs q hq ref href
          · exact ih acc' r h p hmem q hq ref href

theorem checkOperationMessageRef_error_shape (spec : AsyncApiSpec)
    (op_id rp : String) (e : ValidationError)
    (h : checkOperationMessageRef spec op_id rp = .error e) :
    ∃ s, e = .InvalidSchema s := by
  simp only [checkOperationMessageRef] at h
  repeat' split at h
  all_goals
    first
    | exact Except.noConfusion h
    | exact ⟨_, (Except.error.inj h).symm⟩

theorem checkOperationMessages_error_shape (spec : AsyncApiSpec) (op_id : String) :
    ∀ (refs : List MessageReference) (e : ValidationError),
    checkOperationMessages spec op_id refs = .error e →
    ∃ s, e = .InvalidSchema s := by
  intro refs
  induction refs with
  | nil =>
    intro e h
    simp only [checkOperationMessages] at h
    exact Except.noConfusion h
  | cons r rest ih =>
    intro e h
    simp only [checkOperationMessages] at h
    cases hmr : checkOperationMessageRef spec op_id r.ref_path with
    | ok u =>
      cases u
      rw [hmr] at h
      simp only at h
      exact ih e h
    | error e2 =>
      rw [hmr] at h
      simp only at h
      cases h
      exact checkOperationMessageRef_error_shape spec op_id r.ref_path _ hmr

theorem checkOperations_error_shape (spec : AsyncApiSpec) :
    ∀ (ops : List (String × Operation)) (e : ValidationError),
    checkOperations spec ops = .error e →
    (∃ p, e = .InvalidChannelReference p) ∨ (∃ s, e = .InvalidSchema s) := by
  intro ops
  induction ops with
  | nil =>
    intro e h
    simp only [checkOperations] at h
    exact Except.noConfusion h
  | cons p rest ih =>
    intro e h
    obtain ⟨op_id, op⟩ := p
    simp only [checkOperations] at h
    split at h
    · cases h
      exact .inl ⟨_, rfl⟩
    · cases hmr : checkOperationMessages spec op_id op.messages with
      | ok u =>
        cases u
        rw [hmr] at h
        simp only at h
        exact ih e h
      | error e2 =>
        rw [hmr] at h
        simp only at h
        cases h
        exact .inr (checkOperationMessages_error_shape spec op_id op.messages _ hmr)

theorem checkOperationsStep_error_shape (spec : AsyncApiSpec) (e : ValidationError)
    (h : checkOperationsStep spec = .error e) :
    (∃ p, e = .InvalidChannelReference p) ∨ (∃ s, e = .InvalidSchema s) := by
  simp only [checkOperationsStep] at h
  split at h
  · exact checkOperations_error_shape spec _ e h
  · exact Except.noConfusion h

theorem checkServerProtocols_error_shape :
    ∀ (servers : List (String × Server)) (e : ValidationError),
    checkServerProtocols servers = .error e → ∃ s, e = .InvalidProtocol s := by
  intro servers
  induction servers with
  | nil =>
    intro e h
    simp only [checkServerProtocols] at h
    exact Except.noConfusion h
  | cons p rest ih =>
    intro e h
    obtain ⟨server_name, server⟩ := p
    simp only [checkServerProtocols] at h
    cases hvp : validate_protocol server.protocol with
    | ok u =>
      cases u
      rw [hvp] at h
      simp only at h
      exact ih e h
    | error e2 =>
      have hshape : ∃ q s, e2 = .UnsupportedProtocol q s := by
        simp only [validate_protocol] at hvp
        repeat' split at hvp
        all_goals
          first
          | exact Except.noConfusion hvp
          | exact ⟨_, _, (Except.error.inj hvp).symm⟩
      obtain ⟨q2, s2, rfl⟩ := hshape
      rw [hvp] at h
      simp only at h
      cases h
      exact ⟨_, rfl⟩

theorem checkProtocolsStep_error_shape (spec : AsyncApiSpec) (e : ValidationError)
    (h : checkProtocolsStep spec = .error e) : ∃ s, e = .InvalidProtocol s := by
  simp only [checkProtocolsStep] at h
  split at h
  · exact checkServerProtocols_error_shape _ e h
  · exact Except.noConfusion h

theorem validate_channel_bindings_error_shape (protocol : String) (b : Json)
    (cname : String) (e : ValidationError)
    (h : validate_channel_bindings protocol b cname = .error e) :
    ∃ s, e = .InvalidSchema s := by
  simp only [validate_channel_bindings] at h
  repeat' split at h
  all_goals
    first
    | exact Except.noConfusion h
    | exact ⟨_, (Except.error.inj h).symm⟩

theorem checkChannelBindings_error_shape (spec : AsyncApiSpec) :
    ∀ (chans : List (String × Channel)) (e : ValidationError),
    checkChannelBindings spec chans = .error e → ∃ s, e = .InvalidSchema s := by
  intro chans
  induction chans with
  | nil =>
    intro e h
    simp only [checkChannelBindings] at h
    exact Except.noConfusion h
  | cons p rest ih =>
    intro e h
    obtain ⟨cname, channel⟩ := p
    simp only [checkChannelBindings] at h
    split at h
    · rename_i bindings hb
      split at h
      · rename_i protocol hp
        cases hvb : validate_channel_bindings protocol bindings.toJson cname with
        | ok u =>
          cases u
          rw [hvb] at h
          simp only at h
          exact ih e h
        | error e2 =>
          rw [hvb] at h
          simp only at h
          cases h
          exact validate_channel_bindings_error_shape protocol bindings.toJson cname _ hvb
      · exact ih e h
    · exact ih e h

theorem checkComponentMessages_clean :
    ∀ (msgs : List (String × Message)) (acc : List String),
    (∀ m ∈ msgs, m.2.payload.schema.is_null = false) →
    checkComponentMessages msgs acc =
      (idFold (componentIdsOf msgs) acc).map (fun _ => ()) := by
  intro msgs
  induction msgs with
  | nil => intro acc _; rfl
  | cons p rest ih =>
    intro acc hok
    obtain ⟨cmname, m⟩ := p
    have hhead := hok _ (List.mem_cons_self _ _)
    have htail : ∀ q ∈ rest, q.2.payload.schema.is_null = false :=
      fun q hq => hok q (List.mem_cons_of_mem _ hq)
    simp only [checkComponentMessages, componentIdsOf, List.filterMap_cons]
    rw [hhead]
    simp only [Bool.false_eq_true, if_false]
    cases hid : m.message_id with
    | none =>
      simpa [componentIdsOf] using ih acc htail
    | some msg_id =>
      simp only [idFold]
      by_cases hc : acc.contains msg_id
      · rw [if_pos hc, if_pos hc]
        rfl
      · rw [if_neg hc, if_neg hc]
        simpa [componentIdsOf] using ih (msg_id :: acc) htail

theorem checkComponentMessages_err_elim :
    ∀ (msgs : List (String × Message)) (acc : List String) (e : ValidationError),
    checkComponentMessages msgs acc = .error e →
    (∃ s, e = .InvalidSchema s) ∨
    (∃ d, e = .DuplicateMessageId d ∧ 2 ≤ (acc ++ componentIdsOf msgs).count d) := by
  intro msgs
  induction msgs with
  | nil =>
    intro acc e h
    simp only [checkComponentMessages] at h
    exact Except.noConfusion h
  | cons p rest ih =>
    intro acc e h
    obtain ⟨cmname, m⟩ := p
    simp only [checkComponentMessages] at h
    split at h
    · exact .inl ⟨_, (Except.error.inj h).symm⟩
    · cases hid : m.message_id with
      | none =>
        rw [hid] at h
        rcases ih acc e h with hs | ⟨d, hd, hcount⟩
        · exact .inl hs
        · refine .inr ⟨d, hd, ?_⟩
          simp only [componentIdsOf, List.filterMap_cons]
          rw [hid]
          exact hcount
      | some msg_id =>
        rw [hid] at h
        simp only at h
        by_cases hc : acc.contains msg_id
        · rw [if_pos hc] at h
          cases h
          refine .inr ⟨msg_id, rfl, ?_⟩
          have hmem : msg_id ∈ acc := by simpa using hc
          have h1 : 0 < acc.count msg_id := List.count_pos_iff.mpr hmem
          simp only [componentIdsOf, List.filterMap_cons]
          rw [hid]
          rw [List.count_append]
          simp only [List.count_cons_self]
          omega
        · rw [if_neg hc] at h
          rcases ih _ e h with hs | ⟨d, hd, hcount⟩
          · exact .inl hs
          · refine .inr ⟨d, hd, ?_⟩
            simp only [componentIdsOf, List.filterMap_cons]
            rw [hid]
            have hperm :
                List.Perm (msg_id :: (acc ++ componentIdsOf rest))
                  (acc ++ msg_id :: componentIdsOf rest) :=
              List.perm_middle.symm
            have hcount' : 2 ≤ (msg_id :: (acc ++ componentIdsOf rest)).count d := by
              simpa using hcount
            calc 2 ≤ (msg_id :: (acc ++ componentIdsOf rest)).count d := hcount'
              _ = (acc ++ msg_id :: componentIdsOf rest).count d := hperm.count_eq d

theorem alookup_ainsert {α : Type} :
    ∀ (m : List (String × α)) (k : String) (v : α),
    alookup (ainsert m k v) k = some v := by
  intro m k v
  induction m with
  | nil => simp [ainsert, alookup]
  | cons p rest ih =>
    obtain ⟨k2, v2⟩ := p
    by_cases hk : k2 = k
    · simp [ainsert, hk, alookup]
    · simp only [ainsert, alookup, if_neg hk]
      exact ih

theorem idFold_ok_nodup (xs acc r : List String) (h : idFold xs acc = .ok r) :
    xs.Nodup ∧ ∀ x ∈ xs, x ∉ acc := by
  by_contra hn
  obtain ⟨d, herr, _⟩ := idFold_err_of xs acc hn
  rw [h] at herr
  exact Except.noConfusion herr

theorem firstMissingServer_some_not_contains (sn : List String)
    (servers : Option (List String)) (s : String)
    (h : firstMissingServer sn servers = some s) : sn.contains s = false := by
  cases servers with
  | none => simp [firstMissingServer] at h
  | some l =>
    simp only [firstMissingServer] at h
    have := List.find?_some h
    simpa using this

theorem firstMissingServer_none_of_contains (sn : List String)
    (servers : Option (List String))
    (h : ∀ s ∈ servers.getD [], sn.contains s = true) :
    firstMissingServer sn servers = none := by
  cases servers with
  | none => rfl
  | some l =>
    simp only [firstMissingServer]
    rw [List.find?_eq_none]
    intro s hs
    simp only [Option.getD] at h
    rw [h s hs]
    simp

/-- Under the version, info and non-empty-channel checks, `validate_spec`
is the sequence of its remaining steps. -/
theorem validate_spec_unfold_pass (spec : AsyncApiSpec)
    (hv : spec.asyncapi = ASYNCAPI_VERSION)
    (ht : strIsEmpty spec.info.title = false)
    (hver : strIsEmpty spec.info.version = false)
    (hch : spec.channels.isEmpty = false) :
    validate_spec spec =
      match checkChannels spec (serverNames spec) spec.channels [] with
      | .error e => .error e
      | .ok message_ids =>
        match checkOperationsStep spec with
        | .error e => .error e
        | .ok _ =>
          match checkProtocolsStep spec with
          | .error e => .error e
          | .ok _ =>
            match checkChannelBindings spec spec.channels with
            | .error e => .error e
            | .ok _ => checkComponentsStep spec message_ids := by
  simp [validate_spec, hv, ht, hver, hch]

/-- Any error of `validate_spec` comes from one of its steps. -/
theorem validate_spec_error_cases (spec : AsyncApiSpec) (e : ValidationError)
    (h : validate_spec spec = .error e) :
    e = .InvalidAsyncApiVersion spec.asyncapi ∨
    e = .MissingRequiredField "info.title" ∨
    e = .MissingRequiredField "info.version" ∨
    e = .EmptyChannels ∨
    checkChannels spec (serverNames spec) spec.channels [] = .error e ∨
    checkOperationsStep spec = .error e ∨
    checkProtocolsStep spec = .error e ∨
    checkChannelBindings spec spec.channels = .error e ∨
    (∃ r, checkChannels spec (serverNames spec) spec.channels [] = .ok r ∧
      checkComponentsStep spec r = .error e) := by
  simp only [validate_spec] at h
  split at h
  · exact .inl (Except.error.inj h).symm
  · split at h
    · exact .inr (.inl (Except.error.inj h).symm)
    · split at h
      · exact .inr (.inr (.inl (Except.error.inj h).symm))
      · split at h
        · exact .inr (.inr (.inr (.inl (Except.error.inj h).symm)))
        · cases hc : checkChannels spec (serverNames spec) spec.channels [] with
          | error e2 =>
            rw [hc] at h
            simp only at h
            cases h
            exact .inr (.inr (.inr (.inr (.inl rfl))))
          | ok r =>
            rw [hc] at h
            simp only at h
            cases hop : checkOperationsStep spec with
            | error e2 =>
              rw [hop] at h
              simp only at h
              cases h
              exact .inr (.inr (.inr (.inr (.inr (.inl rfl)))))
            | ok u =>
              cases u
              rw [hop] at h
              simp only at h
              cases hpr : checkProtocolsStep spec with
              | error e2 =>
                rw [hpr] at h
                simp only at h
                cases h
                exact .inr (.inr (.inr (.inr (.inr (.inr (.inl rfl))))))
              | ok u =>
                cases u
                rw [hpr] at h
                simp only at h
                cases hb : checkChannelBindings spec spec.channels with
                | error e2 =>
                  rw [hb] at h
                  simp only at h
                  cases h
                  exact .inr (.inr (.inr (.inr (.inr (.inr (.inr (.inl rfl)))))))
                | ok u =>
                  cases u
                  rw [hb] at h
                  simp only at h
                  exact .inr (.inr (.inr (.inr (.inr (.inr (.inr (.inr ⟨r, rfl, h⟩)))))))

/-- Replace every operation's `action` string, the new value chosen per
operation (from its map key and old action); every other field of the
document is untouched. -/
def mapOperationActions (f : String → String → String) (spec : AsyncApiSpec) :
    AsyncApiSpec :=
  { spec with operations :=
      spec.operations.map fun ops =>
        ops.map fun p => (p.1, { p.2 with action := f p.1 p.2.action }) }

theorem checkChannelMessages_mapActions (f : String → String → String)
    (spec : AsyncApiSpec) (cname : String) :
    ∀ (msgs : List (String × MessageOrRef)) (acc : List String),
    checkChannelMessages (mapOperationActions f spec) cname msgs acc =
      checkChannelMessages spec cname msgs acc := by
  intro msgs
  induction msgs with
  | nil => intro acc; rfl
  | cons p rest ih =>
    intro acc
    obtain ⟨mname, entry⟩ := p
    cases entry with
    | Message m =>
      simp only [checkChannelMessages]
      split
      · rfl
      · cases m.message_id with
        | none => exact ih acc
        | some msg_id =>
          simp only
          split
          · rfl
          · exact ih (msg_id :: acc)
    | Ref r =>
      simp only [checkChannelMessages]
      have hmr : checkMessageRef (mapOperationActions f spec) cname mname r.ref_path =
          checkMessageRef spec cname mname r.ref_path := rfl
      rw [hmr]
      split
      · exact ih acc
      · rfl

theorem checkChannels_mapActions (f : String → String → String)
    (spec : AsyncApiSpec) (sn : List String) :
    ∀ (chans : List (String × Channel)) (acc : List String),
    checkChannels (mapOperationActions f spec) sn chans acc =
      checkChannels spec sn chans acc := by
  intro chans
  induction chans with
  | nil => intro acc; rfl
  | cons p rest ih =>
    intro acc
    obtain ⟨cname, channel⟩ := p
    simp only [checkChannels]
    split
    · rfl
    · split
      · rfl
      · rw [checkChannelMessages_mapActions]
        split
        · rfl
        · exact ih _

theorem checkChannelBindings_mapActions (f : String → String → String)
    (spec : AsyncApiSpec) :
    ∀ (chans : List (String × Channel)),
    checkChannelBindings (mapOperationActions f spec) chans =
      checkChannelBindings spec chans := by
  intro chans
  induction chans with
  | nil => rfl
  | cons p rest ih =>
    obtain ⟨cname, channel⟩ := p
    simp only [checkChannelBindings]
    split
    · rename_i bindings hb
      have hp : get_channel_protocol channel (mapOperationActions f spec) =
          get_channel_protocol channel spec := rfl
      rw [hp]
      split
      · split
        · exact ih
        · rfl
      · exact ih
    · exact ih

theorem checkOperationMessages_mapActions (f : String → String → String)
    (spec : AsyncApiSpec) (op_id : String) :
    ∀ (refs : List MessageReference),
    checkOperationMessages (mapOperationActions f spec) op_id refs =
      checkOperationMessages spec op_id refs := by
  intro refs
  induction refs with
  | nil => rfl
  | cons r rest ih =>
    simp only [checkOperationMessages]
    have hmr : checkOperationMessageRef (mapOperationActions f spec) op_id r.ref_path =
        checkOperationMessageRef spec op_id r.ref_path := rfl
    rw [hmr]
    split
    · exact ih
    · rfl

theorem checkOperations_mapActions (f : String → String → String)
    (spec : AsyncApiSpec) :
    ∀ (ops : List (String × Operation)),
    checkOperations (mapOperationActions f spec)
        (ops.map fun p => (p.1, { p.2 with action := f p.1 p.2.action })) =
      checkOperations spec ops := by
  intro ops
  induction ops with
  | nil => rfl
  | cons p rest ih =>
    obtain ⟨op_id, op⟩ := p
    simp only [List.map_cons, checkOperations]
    split
    · rfl
    · rw [checkOperationMessages_mapActions]
      split
      · exact ih
      · rfl

theorem checkOperationsStep_mapActions (f : String → String → String)
    (spec : AsyncApiSpec) :
    checkOperationsStep (mapOperationActions f spec) = checkOperationsStep spec := by
  cases hops : spec.operations with
  | none =>
    simp only [checkOperationsStep, mapOperationActions, hops]
    rfl
  | some ops =>
    have h1 : (mapOperationActions f spec).operations =
        some (ops.map fun p => (p.1, { p.2 with action := f p.1 p.2.action })) := by
      simp only [mapOperationActions, hops]
      rfl
    simp only [checkOperationsStep, h1, hops]
    exact checkOperations_mapActions f spec ops

/-- C10: `validate_spec` never inspects an operation's `action` field: for
every document and every per-operation replacement of the action string by
any other string (for example "publish" or the empty string), the result of
`validate_spec` is unchanged; in particular an otherwise-valid document with
action strings other than "send" or "receive" still validates successfully. -/
theorem validate_spec_ignores_action (spec : AsyncApiSpec)
    (f : String → String → String) :
    validate_spec (mapOperationActions f spec) = validate_spec spec := by
  have hv : (mapOperationActions f spec).asyncapi = spec.asyncapi := rfl
  have hi : (mapOperationActions f spec).info = spec.info := rfl
  have hch : (mapOperationActions f spec).channels = spec.channels := rfl
  have hsn : serverNames (mapOperationActions f spec) = serverNames spec := rfl
  have hcomp : ∀ ids, checkComponentsStep (mapOperationActions f spec) ids =
      checkComponentsStep spec ids := fun _ => rfl
  have hpr : checkProtocolsStep (mapOperationActions f spec) =
      checkProtocolsStep spec := rfl
  simp only [validate_spec, hv, hi, hch, hsn, hpr, hcomp,
    checkChannels_mapActions, checkChannelBindings_mapActions,
    checkOperationsStep_mapActions]

/-!  Concrete documents used to instantiate the theorems. -/

/-- The payload schema used throughout the crate's tests. -/
def objSchema : Json := .obj [("type", .str "object")]

/-- A message with the given id and payload schema, all other fields absent. -/
def mkMessage (id : Option String) (schema : Json) : Message :=
  { message_id := id, name := none, title := none, summary := none,
    description := none, content_type := none, tags := none,
    payload := { schema := schema }, external_docs := none, examples := none,
    headers := none, correlation_id := none }

/-- A channel with the given address and message map, no servers, no
parameters, no bindings. -/
def mkChannel (addr : String) (msgs : List (String × MessageOrRef)) : Channel :=
  { address := addr, description := none, messages := msgs, servers := none,
    parameters := none, bindings := none }

/-- The info section of the spec's concrete scenarios. -/
def infoT : Info :=
  { title := "T", version := "1.0.0", description := none,
    external_docs := none, contact := none, license := none,
    terms_of_service := none }

/-- The document of concrete scenario 1: only the info section is set. -/
def infoOnlySpec : AsyncApiSpec := (AsyncApiBuilder.new.info infoT).build

/-- C7: MQTT quality-of-service round-trips losslessly through its numeric
encoding: `from_u8` inverts `as_u8`, the three levels encode to 0, 1, 2, and
every other byte value fails conversion with `none` rather than defaulting. -/
theorem mqtt_qos_roundtrip :
    (∀ q : MqttQos, MqttQos.from_u8 q.as_u8 = some q) ∧
    MqttQos.AtMostOnce.as_u8 = 0 ∧
    MqttQos.AtLeastOnce.as_u8 = 1 ∧
    MqttQos.ExactlyOnce.as_u8 = 2 ∧
    (∀ n : Nat, n < 256 → ¬(n = 0 ∨ n = 1 ∨ n = 2) → MqttQos.from_u8 n = none) := by
  refine ⟨fun q => by cases q <;> rfl, rfl, rfl, rfl, ?_⟩
  intro n _ hn
  obtain ⟨m, rfl⟩ : ∃ m, n = m + 3 := ⟨n - 3, by omega⟩
  rfl

/-- Witness for C7 at the concrete values 2 and 7. -/
theorem mqtt_qos_roundtrip_witness :
    MqttQos.from_u8 MqttQos.ExactlyOnce.as_u8 = some MqttQos.ExactlyOnce ∧
    MqttQos.from_u8 7 = none :=
  ⟨mqtt_qos_roundtrip.1 MqttQos.ExactlyOnce,
   mqtt_qos_roundtrip.2.2.2.2 7 (by decide) (by decide)⟩

/-- C9: `channel_message` and `channel_message_ref` on a channel name absent
from the builder's channel map are silent no-ops: the builder is returned
unchanged, no channel is created and no message is inserted anywhere. -/
theorem channel_message_absent_noop (b : AsyncApiBuilder)
    (channel_name message_name component_name : String) (message : Message)
    (h : alookup b.spec.channels channel_name = none) :
    b.channel_message channel_name message_name message = b ∧
    b.channel_message_ref channel_name message_name component_name = b := by
  constructor
  · simp only [AsyncApiBuilder.channel_message, h]
  · simp only [AsyncApiBuilder.channel_message_ref, h]

/-- Witness for C9 on the fresh builder, whose channel map is empty. -/
theorem channel_message_absent_noop_witness :
    AsyncApiBuilder.new.channel_message "events" "M" (mkMessage none objSchema) =
      AsyncApiBuilder.new ∧
    AsyncApiBuilder.new.channel_message_ref "events" "M" "C" = AsyncApiBuilder.new :=
  channel_message_absent_noop AsyncApiBuilder.new "events" "M" "C"
    (mkMessage none objSchema) rfl

/-- C3: a document with the right version, non-empty title and version, and
an empty channel map fails with exactly `EmptyChannels`; in particular the
document built from a fresh builder with only the info section set does. -/
theorem validate_empty_channels (spec : AsyncApiSpec)
    (hv : spec.asyncapi = ASYNCAPI_VERSION)
    (ht : strIsEmpty spec.info.title = false)
    (hver : strIsEmpty spec.info.version = false)
    (hch : spec.channels = []) :
    validate_spec spec = .error .EmptyChannels ∧
    validate_spec infoOnlySpec = .error .EmptyChannels := by
  constructor
  · simp [validate_spec, hv, ht, hver, hch]
  · decide

/-- Witness for C3: the builder document itself satisfies the hypotheses. -/
theorem validate_empty_channels_witness :
    validate_spec infoOnlySpec = .error .EmptyChannels :=
  (validate_empty_channels infoOnlySpec rfl rfl rfl rfl).1

/-- C6: for a channel whose effective protocol is "kafka", "mqtt" or "nats",
the bindings check succeeds exactly when the bindings value is a JSON object
with a top-level key equal to the protocol identifier; when the key is
absent the error names the channel. -/
theorem validate_channel_bindings_protocol_key (protocol : String)
    (bindings : Json) (channel_name : String)
    (hp : protocol = "kafka" ∨ protocol = "mqtt" ∨ protocol = "nats") :
    (validate_channel_bindings protocol bindings channel_name = .ok () ↔
      (bindings.objGet protocol).isSome = true) ∧
    ((bindings.objGet protocol).isSome = false →
      ∃ suffix, validate_channel_bindings protocol bindings channel_name =
        .error (.InvalidSchema ("Channel " ++ channel_name ++ suffix))) := by
  rcases hp with rfl | rfl | rfl
  · refine ⟨?_, fun hs => ⟨": Kafka channel bindings must have kafka key", ?_⟩⟩
    · by_cases hs : (bindings.objGet "kafka").isSome
      · simp [validate_channel_bindings, hs]
      · simp [validate_channel_bindings, hs]
    · simp [validate_channel_bindings, hs]
  · refine ⟨?_, fun hs => ⟨": MQTT channel bindings must have mqtt key", ?_⟩⟩
    · by_cases hs : (bindings.objGet "mqtt").isSome
      · simp [validate_channel_bindings, hs]
      · simp [validate_channel_bindings, hs]
    · simp [validate_channel_bindings, hs]
  · refine ⟨?_, fun hs => ⟨": NATS channel bindings must have nats key", ?_⟩⟩
    · by_cases hs : (bindings.objGet "nats").isSome
      · simp [validate_channel_bindings, hs]
      · simp [validate_channel_bindings, hs]
    · simp [validate_channel_bindings, hs]

/-- Witness for C6 at concrete bindings values. -/
theorem validate_channel_bindings_protocol_key_witness :
    validate_channel_bindings "kafka" (.obj [("kafka", .obj [])]) "events" = .ok () ∧
    validate_channel_bindings "mqtt" (.obj [("kafka", .obj [])]) "events" ≠ .ok () := by
  constructor
  · exact (validate_channel_bindings_protocol_key "kafka" (.obj [("kafka", .obj [])])
      "events" (.inl rfl)).1.mpr (by decide)
  · intro hok
    have := (validate_channel_bindings_protocol_key "mqtt" (.obj [("kafka", .obj [])])
      "events" (.inr (.inl rfl))).1.mp hok
    exact absurd this (by decide)

/-- C8: the Kafka channel binding for topic "orders", 3 partitions and 2
replicas carries top-level key "kafka" mapping "topic" to "orders",
"partitions" to 3 and "replicas" to 2 (alongside the binding version), and
`kafka_channel` attaches exactly this payload as the named channel's inline
bindings. -/
theorem kafka_channel_binding_payload :
    ((KafkaProtocol.channel_binding (some "orders") (some 3) (some 2)).objGet
        "kafka").bind (fun o => o.objGet "topic") = some (.str "orders") ∧
    ((KafkaProtocol.channel_binding (some "orders") (some 3) (some 2)).objGet
        "kafka").bind (fun o => o.objGet "partitions") = some (.num 3) ∧
    ((KafkaProtocol.channel_binding (some "orders") (some 3) (some 2)).objGet
        "kafka").bind (fun o => o.objGet "replicas") = some (.num 2) ∧
    ∀ (b : AsyncApiBuilder) (name : String) (channel : Channel),
      alookup ((b.kafka_channel name channel
          (some "orders") (some 3) (some 2)).build).channels name =
        some { channel with bindings := some (.Bindings
          (KafkaProtocol.channel_binding (some "orders") (some 3) (some 2))) } := by
  refine ⟨rfl, rfl, rfl, ?_⟩
  intro b name channel
  simp only [AsyncApiBuilder.kafka_channel, AsyncApiBuilder.channel_with_bindings,
    AsyncApiBuilder.build]
  exact alookup_ainsert _ _ _

theorem validate_spec_ok_channels (spec : AsyncApiSpec)
    (h : validate_spec spec = .ok ()) :
    ∃ r, checkChannels spec (serverNames spec) spec.channels [] = .ok r := by
  simp only [validate_spec] at h
  split at h
  · exact Except.noConfusion h
  · split at h
    · exact Except.noConfusion h
    · split at h
      · exact Except.noConfusion h
      · split at h
        · exact Except.noConfusion h
        · cases hc : checkChannels spec (serverNames spec) spec.channels [] with
          | error e =>
            rw [hc] at h
            simp only at h
            exact Except.noConfusion h
          | ok r => exact ⟨r, rfl⟩

/-- A channel whose single message is a reference into a channel path with
no `/messages/` segment; the claim predicts this is rejected. -/
def channelRefNoSegmentSpec : AsyncApiSpec :=
  ((AsyncApiBuilder.new.info infoT).channel "events"
    (mkChannel "events" [("M", .Ref { ref_path := "#/channels/foo" })])).build

/-- Counterexample to C2: the path `#/channels/foo` has no `/messages/`
segment and names no existing entity, matching neither documented reference
shape, yet the otherwise-valid document validates successfully: the
validator checks a `#/channels/`-prefixed path only when it splits into
exactly two parts around `/messages/`, and silently accepts it otherwise. -/
theorem channel_ref_without_messages_segment_accepted :
    validate_spec channelRefNoSegmentSpec = .ok () ∧
    strStarts "#/channels/foo" "#/channels/" = true ∧
    (strSplitOn (stripOr "#/channels/foo" "#/channels/") "/messages/").length = 1 :=
  ⟨by decide, by decide, by decide⟩

/-- C2, amended: a message reference whose path starts with neither
`#/components/messages/` nor `#/channels/` makes `validate_spec` fail; a
path starting with `#/channels/` but lacking a `/messages/` split into
channel and message parts is accepted without any check. -/
theorem invalid_ref_format_rejected (spec : AsyncApiSpec)
    (h : ∃ p ∈ spec.channels, ∃ q ∈ p.2.messages, ∃ ref,
      q.2 = MessageOrRef.Ref ref ∧
      strStarts ref.ref_path "#/components/messages/" = false ∧
      strStarts ref.ref_path "#/channels/" = false) :
    validate_spec spec ≠ .ok () := by
  intro hok
  obtain ⟨p, hp, q, hq, ref, href, h1, h2⟩ := h
  obtain ⟨r, hr⟩ := validate_spec_ok_channels spec hok
  have hmr := checkChannels_ok_refs spec (serverNames spec) spec.channels [] r hr
    p hp q hq ref href
  simp [checkMessageRef, h1, h2] at hmr

/-- A channel message referencing a path with an unknown prefix. -/
def badRefChannel : Channel :=
  mkChannel "events" [("M", .Ref { ref_path := "#/bogus/path" })]

/-- A document whose only flaw is a message reference with an unknown
prefix. -/
def badPrefixRefSpec : AsyncApiSpec :=
  ((AsyncApiBuilder.new.info infoT).channel "events" badRefChannel).build

/-- Witness for the amended C2 at a concrete document. -/
theorem invalid_ref_format_rejected_witness :
    validate_spec badPrefixRefSpec ≠ .ok () := by
  apply invalid_ref_format_rejected
  refine ⟨("events", badRefChannel), ?_,
    ("M", .Ref { ref_path := "#/bogus/path" }), ?_,
    { ref_path := "#/bogus/path" }, rfl, by decide, by decide⟩
  · show _ ∈ [("events", badRefChannel)]
    exact List.mem_singleton.mpr rfl
  · show _ ∈ [("M", MessageOrRef.Ref { ref_path := "#/bogus/path" })]
    exact List.mem_singleton.mpr rfl

theorem checkChannels_first_empty (spec : AsyncApiSpec) (sn : List String) :
    ∀ (chans : List (String × Channel)) (acc : List String),
    (∀ p ∈ chans, firstMissingServer sn p.2.servers = none) →
    (∀ p ∈ chans, ∀ q ∈ p.2.messages, messageEntryOk spec p.1 q = true) →
    (channelsIds chans).Nodup →
    (∀ x ∈ channelsIds chans, x ∉ acc) →
    (∃ p ∈ chans, p.2.messages = []) →
    ∃ p, chans.find? (fun q => q.2.messages.isEmpty) = some p ∧
      p.2.messages = [] ∧
      checkChannels spec sn chans acc = .error (.ChannelWithoutMessages p.1) := by
  intro chans
  induction chans with
  | nil =>
    intro acc _ _ _ _ hex
    simp at hex
  | cons c rest ih =>
    intro acc hsrv hmsg hnd hdisj hex
    obtain ⟨cname, channel⟩ := c
    by_cases hemp : channel.messages.isEmpty
    · refine ⟨(cname, channel), ?_, ?_, ?_⟩
      · exact List.find?_cons_of_pos _ hemp
      · simpa using hemp
      · simp only [checkChannels]
        rw [if_pos hemp]
    · have hnd' : (channelInlineIds channel.messages ++ channelsIds rest).Nodup := by
        simpa [channelsIds] using hnd
      rw [List.nodup_append] at hnd'
      obtain ⟨hnd1, hnd2, hdisj12⟩ := hnd'
      have hmsgs_head : ∀ q ∈ channel.messages, messageEntryOk spec cname q = true :=
        hmsg _ (List.mem_cons_self _ _)
      have hred := checkChannelMessages_clean spec cname channel.messages acc hmsgs_head
      have hdisj1 : ∀ x ∈ channelInlineIds channel.messages, x ∉ acc := by
        intro x hx
        exact hdisj x (by simp [channelsIds, hx])
      have hok := idFold_ok_of (channelInlineIds channel.messages) acc hnd1 hdisj1
      have hex' : ∃ p ∈ rest, p.2.messages = [] := by
        obtain ⟨pp, hpp, hppemp⟩ := hex
        rcases List.mem_cons.mp hpp with heq | htl
        · exfalso
          rw [heq] at hppemp
          apply hemp
          simp only at hppemp
          simp [hppemp]
        · exact ⟨pp, htl, hppemp⟩
      have hdisj' : ∀ x ∈ channelsIds rest,
          x ∉ (channelInlineIds channel.messages).reverse ++ acc := by
        intro x hx
        simp only [List.mem_append, List.mem_reverse]
        rintro (hx1 | hx2)
        · exact hdisj12 hx1 hx
        · exact hdisj x (by simp [channelsIds, hx]) hx2
      obtain ⟨p, hfindrest, hpemp, hrec⟩ :=
        ih ((channelInlineIds channel.messages).reverse ++ acc)
          (fun p hp => hsrv p (List.mem_cons_of_mem _ hp))
          (fun p hp => hmsg p (List.mem_cons_of_mem _ hp))
          hnd2 hdisj' hex'
      refine ⟨p, ?_, hpemp, ?_⟩
      · rw [List.find?_cons_of_neg _ (by simpa using hemp)]
        exact hfindrest
      · simp only [checkChannels]
        rw [if_neg hemp, hsrv _ (List.mem_cons_self _ _), hred, hok]
        exact hrec

/-- A document with an empty-message channel preceded, in iteration order,
by a channel whose message has a null schema. -/
def nullThenEmptySpec : AsyncApiSpec :=
  { asyncapi := "3.0.0", info := infoT, servers := none,
    channels := [("a", mkChannel "a" [("M0", .Message (mkMessage none .null))]),
                 ("b", mkChannel "b" [])],
    operations := none, components := none, tags := none }

/-- Counterexample to C4: the document has the right version, non-empty
info, a non-empty channel map and a channel ("b") with an empty message map,
yet `validate_spec` reports the null schema from the earlier channel "a"
rather than channel-without-messages for "b". -/
theorem channel_without_messages_preempted :
    validate_spec nullThenEmptySpec =
      .error (.InvalidSchema "Message M0 in channel a has null schema") ∧
    validate_spec nullThenEmptySpec ≠ .error (.ChannelWithoutMessages "b") ∧
    (nullThenEmptySpec.channels.isEmpty = false) ∧
    ((mkChannel "b" []).messages = []) :=
  ⟨by decide, by decide, by decide, rfl⟩

/-- C4, amended: when every channel's listed servers exist, every channel
message passes the schema and reference checks, and the channel message-ids
are distinct, a document with the right version and info containing a
channel with an empty message map fails with channel-without-messages naming
the first channel (in iteration order) whose message map is empty — in
particular, when exactly one channel is empty, that one. -/
theorem validate_channel_without_messages (spec : AsyncApiSpec)
    (hv : spec.asyncapi = ASYNCAPI_VERSION)
    (ht : strIsEmpty spec.info.title = false)
    (hver : strIsEmpty spec.info.version = false)
    (hsrv : ∀ p ∈ spec.channels,
      firstMissingServer (serverNames spec) p.2.servers = none)
    (hmsg : ∀ p ∈ spec.channels, ∀ q ∈ p.2.messages,
      messageEntryOk spec p.1 q = true)
    (hids : (channelsIds spec.channels).Nodup)
    (hempty : ∃ p ∈ spec.channels, p.2.messages = []) :
    ∃ p, spec.channels.find? (fun q => q.2.messages.isEmpty) = some p ∧
      p.2.messages = [] ∧
      validate_spec spec = .error (.ChannelWithoutMessages p.1) := by
  have hch : spec.channels.isEmpty = false := by
    obtain ⟨p, hp, _⟩ := hempty
    cases hcs : spec.channels with
    | nil => rw [hcs] at hp; exact absurd hp (List.not_mem_nil p)
    | cons a l => rfl
  obtain ⟨p, hfind, hpemp, herr⟩ :=
    checkChannels_first_empty spec (serverNames spec) spec.channels []
      hsrv hmsg hids (by simp) hempty
  refine ⟨p, hfind, hpemp, ?_⟩
  rw [validate_spec_unfold_pass spec hv ht hver hch, herr]

/-- A clean document whose second channel has no messages. -/
def goodThenEmptySpec : AsyncApiSpec :=
  { asyncapi := "3.0.0", info := infoT, servers := none,
    channels := [("good", mkChannel "good" [("M", .Message (mkMessage none objSchema))]),
                 ("empty", mkChannel "empty" [])],
    operations := none, components := none, tags := none }

/-- Witness for the amended C4 at a concrete document. -/
theorem validate_channel_without_messages_witness :
    validate_spec goodThenEmptySpec = .error (.ChannelWithoutMessages "empty") := by
  obtain ⟨p, hfind, hpemp, hval⟩ :=
    validate_channel_without_messages goodThenEmptySpec rfl rfl rfl
      (by decide) (by decide) (by decide)
      ⟨("empty", mkChannel "empty" []), by
        show _ ∈ [("good", mkChannel "good" [("M", .Message (mkMessage none objSchema))]),
          ("empty", mkChannel "empty" [])]
        simp, rfl⟩
  have hf : goodThenEmptySpec.channels.find? (fun q => q.2.messages.isEmpty) =
      some ("empty", mkChannel "empty" []) := rfl
  rw [hf] at hfind
  cases hfind
  exact hval

theorem checkComponentsStep_error_shape (spec : AsyncApiSpec) (r : List String)
    (e : ValidationError) (h : checkComponentsStep spec r = .error e) :
    (∃ s, e = .InvalidSchema s) ∨ (∃ d, e = .DuplicateMessageId d) := by
  simp only [checkComponentsStep] at h
  split at h
  · split at h
    · rcases checkComponentMessages_err_elim _ _ _ h with hs | ⟨d, hd, _⟩
      · exact .inl hs
      · exact .inr ⟨d, hd⟩
    · exact Except.noConfusion h
  · exact Except.noConfusion h

theorem checkChannels_first_missing_server (spec : AsyncApiSpec) (sn : List String) :
    ∀ (chans : List (String × Channel)) (acc : List String),
    (∀ p ∈ chans, p.2.messages.isEmpty = false) →
    (∀ p ∈ chans, ∀ q ∈ p.2.messages, messageEntryOk spec p.1 q = true) →
    (channelsIds chans).Nodup →
    (∀ x ∈ channelsIds chans, x ∉ acc) →
    (∃ p ∈ chans, (firstMissingServer sn p.2.servers).isSome = true) →
    ∃ p s, chans.find? (fun q => (firstMissingServer sn q.2.servers).isSome) = some p ∧
      firstMissingServer sn p.2.servers = some s ∧
      checkChannels spec sn chans acc = .error (.InvalidServerReference s) := by
  intro chans
  induction chans with
  | nil =>
    intro acc _ _ _ _ hex
    simp at hex
  | cons c rest ih =>
    intro acc hne hmsg hnd hdisj hex
    obtain ⟨cname, channel⟩ := c
    cases hfm : firstMissingServer sn channel.servers with
    | some s =>
      refine ⟨(cname, channel), s, ?_, hfm, ?_⟩
      · exact List.find?_cons_of_pos _ (by simp [hfm])
      · simp [checkChannels, hne _ (List.mem_cons_self _ _), hfm]
    | none =>
      have hnd' : (channelInlineIds channel.messages ++ channelsIds rest).Nodup := by
        simpa [channelsIds] using hnd
      rw [List.nodup_append] at hnd'
      obtain ⟨hnd1, hnd2, hdisj12⟩ := hnd'
      have hmsgs_head : ∀ q ∈ channel.messages, messageEntryOk spec cname q = true :=
        hmsg _ (List.mem_cons_self _ _)
      have hred := checkChannelMessages_clean spec cname channel.messages acc hmsgs_head
      have hdisj1 : ∀ x ∈ channelInlineIds channel.messages, x ∉ acc := by
        intro x hx
        exact hdisj x (by simp [channelsIds, hx])
      have hok := idFold_ok_of (channelInlineIds channel.messages) acc hnd1 hdisj1
      have hex' : ∃ p ∈ rest, (firstMissingServer sn p.2.servers).isSome = true := by
        obtain ⟨pp, hpp, hppfm⟩ := hex
        rcases List.mem_cons.mp hpp with heq | htl
        · exfalso
          rw [heq] at hppfm
          simp only at hppfm
          rw [hfm] at hppfm
          simp at hppfm
        · exact ⟨pp, htl, hppfm⟩
      have hdisj' : ∀ x ∈ channelsIds rest,
          x ∉ (channelInlineIds channel.messages).reverse ++ acc := by
        intro x hx
        simp only [List.mem_append, List.mem_reverse]
        rintro (hx1 | hx2)
        · exact hdisj12 hx1 hx
        · exact hdisj x (by simp [channelsIds, hx]) hx2
      obtain ⟨p, s, hfindrest, hpfm, hrec⟩ :=
        ih ((channelInlineIds channel.messages).reverse ++ acc)
          (fun p hp => hne p (List.mem_cons_of_mem _ hp))
          (fun p hp => hmsg p (List.mem_cons_of_mem _ hp))
          hnd2 hdisj' hex'
      refine ⟨p, s, ?_, hpfm, ?_⟩
      · rw [List.find?_cons_of_neg _ (by simp [hfm])]
        exact hfindrest
      · simp only [checkChannels]
        rw [if_neg (by simp [hne _ (List.mem_cons_self _ _)]), hfm, hred, hok]
        exact hrec

/-- C5, amended: (first part) when every channel has messages that pass the
schema and reference checks and channel message-ids are distinct, a channel
listing a server name absent from the server map makes `validate_spec` fail
with invalid-server-reference naming the first missing server of the first
such channel in iteration order; (second part) in any document whose
channels only list servers that exist, `validate_spec` never returns
invalid-server-reference. -/
theorem validate_invalid_server_reference (spec : AsyncApiSpec) :
    ((spec.asyncapi = ASYNCAPI_VERSION) →
     (strIsEmpty spec.info.title = false) →
     (strIsEmpty spec.info.version = false) →
     (∀ p ∈ spec.channels, p.2.messages.isEmpty = false) →
     (∀ p ∈ spec.channels, ∀ q ∈ p.2.messages, messageEntryOk spec p.1 q = true) →
     ((channelsIds spec.channels).Nodup) →
     (∃ p ∈ spec.channels,
        (firstMissingServer (serverNames spec) p.2.servers).isSome = true) →
      ∃ p s, spec.channels.find?
          (fun q => (firstMissingServer (serverNames spec) q.2.servers).isSome) = some p ∧
        firstMissingServer (serverNames spec) p.2.servers = some s ∧
        (serverNames spec).contains s = false ∧
        validate_spec spec = .error (.InvalidServerReference s)) ∧
    ((∀ p ∈ spec.channels, ∀ s ∈ p.2.servers.getD [],
        (serverNames spec).contains s = true) →
      ∀ s, validate_spec spec ≠ .error (.InvalidServerReference s)) := by
  constructor
  · intro hv ht hver hne hmsg hids hex
    have hch : spec.channels.isEmpty = false := by
      obtain ⟨p, hp, _⟩ := hex
      cases hcs : spec.channels with
      | nil => rw [hcs] at hp; exact absurd hp (List.not_mem_nil p)
      | cons a l => rfl
    obtain ⟨p, s, hfind, hpfm, herr⟩ :=
      checkChannels_first_missing_server spec (serverNames spec) spec.channels []
        hne hmsg hids (by simp) hex
    refine ⟨p, s, hfind, hpfm,
      firstMissingServer_some_not_contains _ _ _ hpfm, ?_⟩
    rw [validate_spec_unfold_pass spec hv ht hver hch, herr]
  · intro hall s hval
    rcases validate_spec_error_cases spec _ hval with
      h | h | h | h | h | h | h | h | ⟨r, _, h⟩
    · exact ValidationError.noConfusion h
    · exact ValidationError.noConfusion h
    · exact ValidationError.noConfusion h
    · exact ValidationError.noConfusion h
    · rcases checkChannels_err_elim spec (serverNames spec) spec.channels [] _ h with
        ⟨s2, hs⟩ | ⟨c2, hc⟩ | ⟨s2, hse, p, hp, hfms⟩ | ⟨d, hd, _⟩
      · exact ValidationError.noConfusion hs
      · exact ValidationError.noConfusion hc
      · have : firstMissingServer (serverNames spec) p.2.servers = none :=
          firstMissingServer_none_of_contains _ _ (hall p hp)
        rw [this] at hfms
        exact Option.noConfusion hfms
      · exact ValidationError.noConfusion hd
    · rcases checkOperationsStep_error_shape spec _ h with ⟨p2, hp⟩ | ⟨s2, hs⟩
      · exact ValidationError.noConfusion hp
      · exact ValidationError.noConfusion hs
    · obtain ⟨s2, hs⟩ := checkProtocolsStep_error_shape spec _ h
      exact ValidationError.noConfusion hs
    · obtain ⟨s2, hs⟩ := checkChannelBindings_error_shape spec _ _ h
      exact ValidationError.noConfusion hs
    · rcases checkComponentsStep_error_shape spec r _ h with ⟨s2, hs⟩ | ⟨d, hd⟩
      · exact ValidationError.noConfusion hs
      · exact ValidationError.noConfusion hd

/-- A document with a missing-server channel preceded, in iteration order,
by a channel whose message has a null schema. -/
def nullThenBadServerSpec : AsyncApiSpec :=
  { asyncapi := "3.0.0", info := infoT, servers := none,
    channels := [("a", mkChannel "a" [("M0", .Message (mkMessage none .null))]),
                 ("b", { mkChannel "b" [("M", .Message (mkMessage none objSchema))]
                          with servers := some ["prod"] })],
    operations := none, components := none, tags := none }

/-- Counterexample to C5: the document passes the version, info and channel
checks and channel "b" lists the undefined server "prod", yet `validate_spec`
reports the null schema from the earlier channel "a" instead of
invalid-server-reference. -/
theorem invalid_server_reference_preempted :
    validate_spec nullThenBadServerSpec =
      .error (.InvalidSchema "Message M0 in channel a has null schema") ∧
    validate_spec nullThenBadServerSpec ≠ .error (.InvalidServerReference "prod") ∧
    nullThenBadServerSpec.channels.isEmpty = false ∧
    (firstMissingServer (serverNames nullThenBadServerSpec)
      (some ["prod"])).isSome = true :=
  ⟨by decide, by decide, by decide, by decide⟩

/-- The document of concrete scenario 5: a channel references the server
"prod" that was never added. -/
def prodServerSpec : AsyncApiSpec :=
  { asyncapi := "3.0.0", info := infoT, servers := none,
    channels := [("events", { mkChannel "events"
      [("M", .Message (mkMessage none objSchema))] with servers := some ["prod"] })],
    operations := none, components := none, tags := none }

/-- Witness for the amended C5 at concrete documents. -/
theorem validate_invalid_server_reference_witness :
    validate_spec prodServerSpec = .error (.InvalidServerReference "prod") ∧
    validate_spec goodThenEmptySpec ≠ .error (.InvalidServerReference "prod") := by
  constructor
  · obtain ⟨p, s, hfind, hpfm, _, hval⟩ :=
      (validate_invalid_server_reference prodServerSpec).1 rfl rfl rfl
        (by decide) (by decide) (by decide)
        ⟨("events", { mkChannel "events" [("M", .Message (mkMessage none objSchema))]
            with servers := some ["prod"] }), by
          show _ ∈ [("events", { mkChannel "events"
            [("M", .Message (mkMessage none objSchema))] with servers := some ["prod"] })]
          simp, by decide⟩
    have hf : prodServerSpec.channels.find?
        (fun q => (firstMissingServer (serverNames prodServerSpec) q.2.servers).isSome) =
        some ("events", { mkChannel "events" [("M", .Message (mkMessage none objSchema))]
          with servers := some ["prod"] }) := rfl
    rw [hf] at hfind
    cases hfind
    have hfm : firstMissingServer (serverNames prodServerSpec) (some ["prod"]) =
        some "prod" := rfl
    rw [show firstMissingServer (serverNames prodServerSpec)
      ({ mkChannel "events" [("M", .Message (mkMessage none objSchema))]
        with servers := some ["prod"] } : Channel).servers = some "prod" from rfl] at hpfm
    cases hpfm
    exact hval
  · exact (validate_invalid_server_reference goodThenEmptySpec).2 (by decide) "prod"

/-- The component-message map the validator scans (empty when the components
section or its message map is absent). -/
def componentMessages (spec : AsyncApiSpec) : List (String × Message) :=
  match spec.components with
  | some components => components.messages.getD []
  | none => []

/-- A document with one channel whose duplicate-id pair is preceded, in
iteration order, by a message with a null schema. -/
def nullThenDupSpec : AsyncApiSpec :=
  { asyncapi := "3.0.0", info := infoT, servers := none,
    channels := [("c", mkChannel "c"
      [("M0", .Message (mkMessage none .null)),
       ("M1", .Message (mkMessage (some "dup") objSchema)),
       ("M2", .Message (mkMessage (some "dup") objSchema))])],
    operations := none, components := none, tags := none }

/-- Counterexample to C1: the document has the right version and info,
non-empty channels each with messages, no server references and no message
references (so all references trivially resolve), and two messages sharing
the message-id "dup" — yet `validate_spec` returns the null-schema error for
the message scanned first, not duplicate-message-id. -/
theorem duplicate_message_id_preempted :
    validate_spec nullThenDupSpec =
      .error (.InvalidSchema "Message M0 in channel c has null schema") ∧
    validate_spec nullThenDupSpec ≠ .error (.DuplicateMessageId "dup") ∧
    2 ≤ (allMessageIds nullThenDupSpec).count "dup" ∧
    nullThenDupSpec.channels.isEmpty = false :=
  ⟨by decide, by decide, by decide, by decide⟩

/-- C1, amended: (first part) for documents passing the version, info and
channel checks whose message payload schemas are all non-null, whose
operations, server protocols and channel bindings pass their checks, if some
message-id is borne by two messages (in any combination of channels and
component messages) then `validate_spec` returns duplicate-message-id
carrying an id borne by two messages; (second part) for every document in
which all message-ids are distinct, `validate_spec` never returns
duplicate-message-id. -/
theorem validate_duplicate_message_id (spec : AsyncApiSpec) :
    (spec.asyncapi = ASYNCAPI_VERSION →
     strIsEmpty spec.info.title = false →
     strIsEmpty spec.info.version = false →
     spec.channels.isEmpty = false →
     (∀ p ∈ spec.channels, channelOk spec (serverNames spec) p = true) →
     (∀ p ∈ componentMessages spec, p.2.payload.schema.is_null = false) →
     checkOperationsStep spec = .ok () →
     checkProtocolsStep spec = .ok () →
     checkChannelBindings spec spec.channels = .ok () →
     ¬ (allMessageIds spec).Nodup →
     ∃ d, validate_spec spec = .error (.DuplicateMessageId d) ∧
       2 ≤ (allMessageIds spec).count d) ∧
    ((allMessageIds spec).Nodup →
     ∀ d, validate_spec spec ≠ .error (.DuplicateMessageId d)) := by
  constructor
  · intro hv ht hver hch hclean hcomp hops hproto hbind hdup
    rw [validate_spec_unfold_pass spec hv ht hver hch]
    rw [checkChannels_clean spec (serverNames spec) spec.channels [] hclean]
    cases hif : idFold (channelsIds spec.channels) [] with
    | error e =>
      obtain ⟨d, hd, hcount⟩ := idFold_err_elim _ _ _ hif
      subst hd
      refine ⟨d, rfl, ?_⟩
      simp only [List.nil_append] at hcount
      simp only [allMessageIds, List.count_append]
      omega
    | ok r =>
      have hr := idFold_ok_elim _ _ _ hif
      obtain ⟨hnd1, _⟩ := idFold_ok_nodup _ _ _ hif
      simp only [hops, hproto, hbind]
      cases hcs : spec.components with
      | none =>
        exfalso
        apply hdup
        have hall : allMessageIds spec = channelsIds spec.channels := by
          simp [allMessageIds, componentIds, hcs]
        rw [hall]
        exact hnd1
      | some components =>
        cases hms : components.messages with
        | none =>
          exfalso
          apply hdup
          have hall : allMessageIds spec = channelsIds spec.channels := by
            simp [allMessageIds, componentIds, componentIdsOf, hcs, hms]
          rw [hall]
          exact hnd1
        | some msgs =>
          have hcm : ∀ p ∈ msgs, p.2.payload.schema.is_null = false := by
            intro p hp
            apply hcomp
            simp [componentMessages, hcs, hms]
            exact hp
          have hred := checkComponentMessages_clean msgs r hcm
          have hnotok : ¬ ((componentIdsOf msgs).Nodup ∧
              ∀ x ∈ componentIdsOf msgs, x ∉ r) := by
            rintro ⟨hnd2, hdisj2⟩
            apply hdup
            have hall : allMessageIds spec =
                channelsIds spec.channels ++ componentIdsOf msgs := by
              simp [allMessageIds, componentIds, hcs, hms]
            rw [hall, List.nodup_append]
            refine ⟨hnd1, hnd2, ?_⟩
            intro a ha hb
            exact hdisj2 a hb (by rw [hr]; simp [ha])
          obtain ⟨d, herr, hcount⟩ := idFold_err_of (componentIdsOf msgs) r hnotok
          refine ⟨d, ?_, ?_⟩
          · simp only [checkComponentsStep, hcs, hms]
            rw [hred, herr]
            rfl
          · rw [hr] at hcount
            have hall : allMessageIds spec =
                channelsIds spec.channels ++ componentIdsOf msgs := by
              simp [allMessageIds, componentIds, hcs, hms]
            rw [hall]
            simp only [List.count_append, List.count_reverse, List.count_nil] at hcount ⊢
            omega
  · intro hnd d hval
    have hle := List.nodup_iff_count_le_one.mp hnd d
    rcases validate_spec_error_cases spec _ hval with
      h | h | h | h | h | h | h | h | ⟨r, hok, h⟩
    · exact ValidationError.noConfusion h
    · exact ValidationError.noConfusion h
    · exact ValidationError.noConfusion h
    · exact ValidationError.noConfusion h
    · rcases checkChannels_err_elim spec (serverNames spec) spec.channels [] _ h with
        ⟨s, hs⟩ | ⟨c, hc⟩ | ⟨s, hs, _⟩ | ⟨d2, hd2, hcount⟩
      · exact ValidationError.noConfusion hs
      · exact ValidationError.noConfusion hc
      · exact ValidationError.noConfusion hs
      · cases ValidationError.DuplicateMessageId.inj hd2
        simp only [List.nil_append] at hcount
        simp only [allMessageIds, List.count_append] at hle
        omega
    · rcases checkOperationsStep_error_shape spec _ h with ⟨p2, hp⟩ | ⟨s2, hs⟩
      · exact ValidationError.noConfusion hp
      · exact ValidationError.noConfusion hs
    · obtain ⟨s2, hs⟩ := checkProtocolsStep_error_shape spec _ h
      exact ValidationError.noConfusion hs
    · obtain ⟨s2, hs⟩ := checkChannelBindings_error_shape spec _ _ h
      exact ValidationError.noConfusion hs
    · have hr := checkChannels_ok_elim spec (serverNames spec) spec.channels [] r hok
      cases hcs : spec.components with
      | none =>
        simp only [checkComponentsStep, hcs] at h
        exact Except.noConfusion h
      | some components =>
        cases hms : components.messages with
        | none =>
          simp only [checkComponentsStep, hcs, hms] at h
          exact Except.noConfusion h
        | some msgs =>
          simp only [checkComponentsStep, hcs, hms] at h
          rcases checkComponentMessages_err_elim msgs r _ h with ⟨s, hs⟩ | ⟨d2, hd2, hcount⟩
          · exact ValidationError.noConfusion hs
          · cases ValidationError.DuplicateMessageId.inj hd2
            rw [hr] at hcount
            have hall : allMessageIds spec =
                channelsIds spec.channels ++ componentIdsOf msgs := by
              simp [allMessageIds, componentIds, hcs, hms]
            rw [hall] at hle
            simp only [List.count_append, List.count_reverse, List.count_nil] at hcount hle
            omega

/-- A clean document in which a channel message and a component message
share the message-id "shared". -/
def dupAcrossSpec : AsyncApiSpec :=
  { asyncapi := "3.0.0", info := infoT, servers := none,
    channels := [("events", mkChannel "events"
      [("M", .Message (mkMessage (some "shared") objSchema))])],
    operations := none,
    components := some { Components.default with
      messages := some [("C", mkMessage (some "shared") objSchema)] },
    tags := none }

/-- Witness for the amended C1 at concrete documents. -/
theorem validate_duplicate_message_id_witness :
    validate_spec dupAcrossSpec = .error (.DuplicateMessageId "shared") ∧
    validate_spec goodThenEmptySpec ≠ .error (.DuplicateMessageId "shared") := by
  constructor
  · obtain ⟨d, hval, hcount⟩ := (validate_duplicate_message_id dupAcrossSpec).1
      rfl rfl rfl rfl (by decide) (by decide) rfl rfl rfl (by decide)
    have hids : allMessageIds dupAcrossSpec = ["shared", "shared"] := rfl
    rw [hids] at hcount
    have hm : d ∈ ["shared", "shared"] := List.count_pos_iff.mp (by omega)
    simp at hm
    rw [hm] at hval
    exact hval
  · exact (validate_duplicate_message_id goodThenEmptySpec).2 (by decide) "shared"
